import Mathlib

/-!
Verification development for the SimpleBundler JavaScript module bundler
(AST-based variant).  The JavaScript source is shallowly embedded: strings
are `List Char`, the Node `path` functions are modelled for absolute
working directories, the acorn AST is embedded at the level of the three
node kinds the analyzer inspects, and the stateful bundler class becomes
explicit state passing.  All definitions are translated from the source;
theorems at the end settle the specification claims.
-/

set_option maxRecDepth 10000

abbrev Str := List Char

/-- Convert a Lean string literal to the `List Char` representation. -/
def strOf (s : String) : Str := s.toList

/-- JS `content.substring(a, b)` for `a ≤ b` (byte offsets into the source). -/
def substrRange (s : Str) (a b : Nat) : Str := (s.take b).drop a

/-- Split a path on `'/'` (every separator produces a boundary; pieces may be
empty, mirroring `"a//b".split("/")`). -/
def splitSlash : Str → List Str
  | [] => [[]]
  | c :: rest =>
    if c = '/' then [] :: splitSlash rest
    else
      match splitSlash rest with
      | [] => [[c]]
      | s :: ss => (c :: s) :: ss

/-- Join path segments with `'/'`. -/
def joinSlash : List Str → Str
  | [] => []
  | [s] => s
  | s :: ss => s ++ '/' :: joinSlash ss

/-- One step of Node path normalization over a segment stack: empty and `.`
segments are dropped, `..` pops (saturating at the root of an absolute
path), anything else is pushed. -/
def normStep (acc : List Str) (seg : Str) : List Str :=
  if seg = [] ∨ seg = strOf "." then acc
  else if seg = strOf ".." then acc.dropLast
  else acc ++ [seg]

/-- Normalized segment stack of a path string. -/
def normSegs (s : Str) : List Str := (splitSlash s).foldl normStep []

/-- Normalization of an absolute path. -/
def normalizeAbs (s : Str) : Str := '/' :: joinSlash (normSegs s)

/-- Does the path start with `'/'`? -/
def isAbsolute : Str → Bool
  | '/' :: _ => true
  | _ => false

/-- Node `path.resolve(a, b)` for a process working directory `cwd`
(used as the final fallback exactly as Node prepends the real `cwd`). -/
def pathResolve (cwd a b : Str) : Str :=
  if isAbsolute b then normalizeAbs b
  else if isAbsolute a then normalizeAbs (a ++ '/' :: b)
  else normalizeAbs (cwd ++ '/' :: a ++ '/' :: b)

/-- Node `path.dirname` on the normalized absolute paths the bundler feeds it. -/
def pathDirname (s : Str) : Str := '/' :: joinSlash (normSegs s).dropLast

/-- Length of the common prefix of two segment lists. -/
def commonPrefixLen : List Str → List Str → Nat
  | a :: as, b :: bs => if a = b then 1 + commonPrefixLen as bs else 0
  | _, _ => 0

/-- Node `path.relative(a, b)` on absolute paths: strip the common segment
prefix, go up with `..` for what remains of `a`, then down into `b`. -/
def pathRelative (a b : Str) : Str :=
  let fa := normSegs a
  let fb := normSegs b
  let k := commonPrefixLen fa fb
  joinSlash (List.replicate (fa.length - k) (strOf "..") ++ fb.drop k)

/-- `isLocalModule` from the source: the specifier begins with `./`, `../`
or `/`. -/
def isLocalModule (p : Str) : Bool :=
  (strOf "./").isPrefixOf p || (strOf "../").isPrefixOf p || (strOf "/").isPrefixOf p

/-- `resolveDependencyPath` from the source: join the importer's directory
with the specifier, appending `.js` when no such suffix is present. -/
def resolveDependencyPath (cwd importer dep : Str) : Str :=
  pathResolve cwd (pathDirname importer)
    (if (strOf ".js").isSuffixOf dep then dep else dep ++ strOf ".js")

/-- JS `s.replace(pat, repl)` with a plain-string pattern: replace the first
occurrence only. -/
def replaceFirst (pat repl : Str) : Str → Str
  | [] => if pat.isEmpty then repl else []
  | c :: rest =>
    if pat.isPrefixOf (c :: rest) then repl ++ (c :: rest).drop pat.length
    else c :: replaceFirst pat repl rest

/-- Is the character a JS string quote (`"` or `'`)? -/
def isQuote (c : Char) : Bool := c = '\x22' || c = '\x27'

/-- One-pass scan implementing the global regex match: the state is `none`
outside a candidate match, or `some (q, acc)` after an opening quote `q`
with the (reversed) quote-free body read so far.  A closing quote after a
nonempty body completes a match; a quote after an empty body emits the
failed opener and retries at the new quote (the regex engine's
advance-by-one); end of input emits any unfinished candidate verbatim. -/
def rqAux : Option (Char × Str) → Str → Str
  | none, [] => []
  | some (q, acc), [] => q :: acc.reverse
  | none, c :: rest =>
    if isQuote c then rqAux (some (c, [])) rest else c :: rqAux none rest
  | some (q, acc), c :: rest =>
    if isQuote c then
      if acc.isEmpty then q :: rqAux (some (c, [])) rest
      else strOf "require(\x22" ++ acc.reverse ++ strOf "\x22)" ++ rqAux none rest
    else rqAux (some (q, c :: acc)) rest

/-- JS `s.replace(/['"]([^'"]+)['"]/g, 'require("$1")')`: every
quote-delimited chunk with a nonempty quote-free body becomes
`require("body")`; scanning resumes after the closing quote. -/
def replaceQuoted (s : Str) : Str := rqAux none s

/-- JS `s.replace(/;?$/, ';')`: guarantee a trailing semicolon. -/
def ensureSemi (s : Str) : Str :=
  if (strOf ";").isSuffixOf s then s else s ++ strOf ";"

/-- JS whitespace for `String.prototype.trim`. -/
def isWs (c : Char) : Bool := c = ' ' || c = '\n' || c = '\t' || c = '\r'

/-- JS `s.trim()`. -/
def trimWs (s : Str) : Str :=
  ((s.dropWhile isWs).reverse.dropWhile isWs).reverse

/-- JS `Array.prototype.join(sep)`. -/
def joinSep (sep : Str) : List Str → Str
  | [] => []
  | [x] => x
  | x :: xs => x ++ sep ++ joinSep sep xs

/-- Identifier characters for the `/[^a-zA-Z0-9_]/g` class. -/
def isIdentChar (c : Char) : Bool :=
  ('a' ≤ c && c ≤ 'z') || ('A' ≤ c && c ≤ 'Z') || ('0' ≤ c && c ≤ '9') || c = '_'

/-- JS `source.replace(/[^a-zA-Z0-9_]/g, '_')` used to derive the re-export
alias name. -/
def sanitizeSpec (s : Str) : Str := s.map (fun c => if isIdentChar c then c else '_')

/-- Does `pat` occur as a contiguous substring of `s`? -/
def isSubstr (pat : Str) : Str → Bool
  | [] => pat.isEmpty
  | c :: rest => pat.isPrefixOf (c :: rest) || isSubstr pat rest

/-! ## AST embedding

The analyzer inspects exactly three node kinds (`walk.simple` with handlers
for `ImportDeclaration`, `ExportNamedDeclaration`, `ExportDefaultDeclaration`);
other nodes never reach it and are not represented.  Nodes carry their
source span (`node.start` / `node.end`). -/

inductive ImportSpecifier
  | defaultSpec (localName : Str)
  | namedSpec (importedName localName : Str)
  | namespaceSpec (localName : Str)
deriving DecidableEq, Repr

structure ExportSpecNode where
  exportedName : Str
  localName : Str
deriving DecidableEq, Repr

/-- `node.declaration` of an `ExportNamedDeclaration`.  A `varDecl` lists its
declarators: `some name` for an `Identifier` pattern, `none` for a
destructuring pattern (which the analyzer skips). -/
inductive ExportDecl
  | varDecl (declarators : List (Option Str))
  | funDecl (id : Option Str)
  | classDecl (id : Option Str)
  | otherDecl
deriving DecidableEq, Repr

/-- `node.declaration` of an `ExportDefaultDeclaration`; function/class forms
carry the declaration's own span for the anonymous-payload text. -/
inductive DefaultDecl
  | identDecl (name : Str)
  | funMaybeNamed (id : Option Str) (dstart dstop : Nat)
  | classMaybeNamed (id : Option Str) (dstart dstop : Nat)
  | exprDecl (dstart dstop : Nat)
deriving DecidableEq, Repr

inductive JsNode
  | importNode (nstart nstop : Nat) (source : Option Str) (specifiers : List ImportSpecifier)
  | exportNamedNode (nstart nstop : Nat) (decl : Option ExportDecl)
      (specifiers : List ExportSpecNode) (source : Option Str)
  | exportDefaultNode (nstart nstop : Nat) (decl : DefaultDecl)
deriving DecidableEq, Repr

/-! ## Module records and the analyzer -/

structure ImportInfo where
  named : List Str
  defaultName : Option Str
  nspace : Option Str
  path : Str
  originalText : Str
  resolvedPath : Str
deriving DecidableEq, Repr

structure ExportsDesc where
  named : List Str
  defaultE : Option Str
deriving DecidableEq, Repr

/-- An edit: replace bytes `[start, stop)` of the original text by `repl`. -/
structure Edit where
  start : Nat
  stop : Nat
  repl : Str
deriving DecidableEq, Repr

/-- The analyzer's accumulator: the six per-module collections
(`processedExports`, a JS `Set`, is modelled as a list queried by
membership). -/
structure ModuleInfo where
  dependencies : List Str
  imports : List ImportInfo
  exportsD : ExportsDesc
  transformations : List Edit
  additionalExports : List Str
  processedExports : List Str
deriving DecidableEq, Repr

def initInfo : ModuleInfo := ⟨[], [], ⟨[], none⟩, [], [], []⟩

structure JsModule where
  id : Nat
  filePath : Str
  content : Str
  dependencies : List Str
  imports : List ImportInfo
  exportsD : ExportsDesc
  transformations : List Edit
  additionalExports : List Str
  processedExports : List Str
deriving DecidableEq, Repr

/-- `importData` assembled at the end of `buildImportReplacement`. -/
structure ImportData where
  defaultName : Option Str
  named : List Str
  nspace : Option Str
deriving DecidableEq, Repr

/-- The specifier scan at the top of `buildImportReplacement`:
`namedImports` entries are `(importedName, localName, needsIndividualRequire)`. -/
structure ImpAcc where
  namedImports : List (Str × Str × Bool)
  hasDefaultImport : Bool
  defaultImportName : Option Str
  hasNamespaceImport : Bool
  namespaceImportName : Option Str
deriving Repr

def impAccStep (acc : ImpAcc) : ImportSpecifier → ImpAcc
  | .defaultSpec l =>
    { acc with hasDefaultImport := true, defaultImportName := some l }
  | .namedSpec imp l =>
    { acc with namedImports := acc.namedImports ++ [(imp, l, decide (imp ≠ l))] }
  | .namespaceSpec l =>
    { acc with hasNamespaceImport := true, namespaceImportName := some l }

def concatAll (xs : List Str) : Str := xs.foldl (fun a b => a ++ b) []

/-- `buildImportReplacement` from the source: emit the require-style binding
statements (namespace, then default, then named — with destructuring when no
named import is renamed) and the `importData` record. -/
def buildImportReplacement (specifiers : List ImportSpecifier) (modulePath : Str) :
    Str × ImportData :=
  let a := specifiers.foldl impAccStep ⟨[], false, none, false, none⟩
  let needsInd := a.namedImports.any (fun i => i.2.2)
  let r1 : Str :=
    if a.hasNamespaceImport then
      strOf "const " ++ a.namespaceImportName.getD [] ++ strOf " = require(\x22" ++
        modulePath ++ strOf "\x22);\n"
    else []
  let r2 : Str :=
    if a.hasDefaultImport && (a.namedImports.isEmpty || needsInd) then
      strOf "const " ++ a.defaultImportName.getD [] ++ strOf " = require(\x22" ++
        modulePath ++ strOf "\x22).default;\n"
    else []
  let r3 : Str :=
    if !a.namedImports.isEmpty then
      if !needsInd then
        let names := joinSep (strOf ", ") (a.namedImports.map (fun i => i.2.1))
        let names2 :=
          if a.hasDefaultImport then
            strOf "default: " ++ a.defaultImportName.getD [] ++
              (if names.length > 0 then strOf ", " ++ names else [])
          else names
        strOf "const \x7b " ++ names2 ++ strOf " \x7d = require(\x22" ++
          modulePath ++ strOf "\x22);\n"
      else
        concatAll (a.namedImports.map (fun i =>
          strOf "const " ++ i.2.1 ++ strOf " = require(\x22" ++ modulePath ++
            strOf "\x22)." ++ i.1 ++ strOf ";\n"))
    else if !a.hasDefaultImport && !a.hasNamespaceImport then
      strOf "require(\x22" ++ modulePath ++ strOf "\x22);\n"
    else []
  let importData : ImportData :=
    ⟨a.defaultImportName,
     a.namedImports.map (fun i =>
       if i.1 ≠ i.2.1 then i.1 ++ strOf " as " ++ i.2.1 else i.1),
     a.namespaceImportName⟩
  (trimWs (r1 ++ r2 ++ r3), importData)

/-- `processExternalImport`'s replacement text: the chain of JS `replace`
calls rewriting the declaration into a `require` form. -/
def externalImportReplacement (originalText : Str) : Str :=
  ensureSemi (replaceQuoted (replaceFirst (strOf "from") (strOf "=")
    (replaceFirst (strOf "import") (strOf "const") originalText)))

/-- `processImport` from the source. -/
def processImport (cwd content filePath : Str) (nstart nstop : Nat)
    (source : Option Str) (specifiers : List ImportSpecifier)
    (st : ModuleInfo) : ModuleInfo :=
  match source with
  | none => st
  | some sourceValue =>
    let st := { st with dependencies := st.dependencies ++ [sourceValue] }
    if !isLocalModule sourceValue then
      { st with transformations := st.transformations ++
          [⟨nstart, nstop, externalImportReplacement (substrRange content nstart nstop)⟩] }
    else
      let absolutePath := resolveDependencyPath cwd filePath sourceValue
      let relativePath := strOf "./" ++ pathRelative cwd absolutePath
      let originalText := substrRange content nstart nstop
      let p := buildImportReplacement specifiers relativePath
      let importInfo : ImportInfo :=
        ⟨p.2.named, p.2.defaultName, p.2.nspace, sourceValue, originalText, relativePath⟩
      { st with imports := st.imports ++ [importInfo],
                transformations := st.transformations ++ [⟨nstart, nstop, p.1⟩] }

/-- Record one exported identifier: add it to the named-exports set,
schedule its trailing `exports.n = n;` assignment, and mark it satisfied. -/
def exportOneName (st : ModuleInfo) (name : Str) : ModuleInfo :=
  { st with exportsD := { st.exportsD with named := st.exportsD.named ++ [name] },
            additionalExports := st.additionalExports ++
              [strOf "exports." ++ name ++ strOf " = " ++ name ++ strOf ";"],
            processedExports := st.processedExports ++ [name] }

/-- One declarator of `export const/let/var …`: identifier patterns are
exported, destructuring patterns are skipped. -/
def varDeclStep (st : ModuleInfo) (d : Option Str) : ModuleInfo :=
  match d with
  | some varName => exportOneName st varName
  | none => st

/-- `processExportDeclaration` from the source: strip the `export ` keyword
and schedule a trailing assignment for each declared identifier. -/
def processExportDeclaration (nstart : Nat) (decl : ExportDecl)
    (st : ModuleInfo) : ModuleInfo :=
  let st := { st with transformations := st.transformations ++
      [⟨nstart, nstart + (strOf "export ").length, []⟩] }
  match decl with
  | .varDecl declarators => declarators.foldl varDeclStep st
  | .funDecl (some name) => exportOneName st name
  | .classDecl (some name) => exportOneName st name
  | _ => st

/-- One `export \x7b … \x7d from S` specifier: extend the replacement with
`exports.<exported> = <alias>.<local>;` and record the exported name. -/
def reexSpecStep (requireVarName : Str) (acc : Str × ModuleInfo)
    (spec : ExportSpecNode) : Str × ModuleInfo :=
  (acc.1 ++ strOf "exports." ++ spec.exportedName ++ strOf " = " ++
     requireVarName ++ strOf "." ++ spec.localName ++ strOf ";\n",
   { acc.2 with exportsD :=
      { acc.2.exportsD with named := acc.2.exportsD.named ++ [spec.exportedName] } })

/-- `processReExports` from the source: bind a fresh alias require and assign
each re-exported name off it. -/
def processReExports (cwd filePath : Str) (nstart nstop : Nat)
    (specifiers : List ExportSpecNode) (sourceValue : Str)
    (st : ModuleInfo) : ModuleInfo :=
  let st := { st with dependencies := st.dependencies ++ [sourceValue] }
  let absolutePath := resolveDependencyPath cwd filePath sourceValue
  let relativePath := strOf "./" ++ pathRelative cwd absolutePath
  let requireVarName := strOf "_require_" ++ sanitizeSpec sourceValue
  let repl0 := strOf "const " ++ requireVarName ++ strOf " = require(\x22" ++
    relativePath ++ strOf "\x22);\n"
  let p := specifiers.foldl (reexSpecStep requireVarName) (repl0, st)
  { p.2 with transformations := p.2.transformations ++ [⟨nstart, nstop, trimWs p.1⟩] }

/-- One sourceless `export \x7b … \x7d` specifier:
`exports.<exported> = <local>;` plus the exported name. -/
def localSpecStep (acc : Str × ModuleInfo) (spec : ExportSpecNode) :
    Str × ModuleInfo :=
  (acc.1 ++ strOf "exports." ++ spec.exportedName ++ strOf " = " ++
     spec.localName ++ strOf ";\n",
   { acc.2 with exportsD :=
      { acc.2.exportsD with named := acc.2.exportsD.named ++ [spec.exportedName] } })

/-- The sourceless branch of `processExportSpecifiers`:
`export \x7b a, b as c \x7d` becomes direct `exports` assignments. -/
def processLocalExportSpecifiers (nstart nstop : Nat)
    (specifiers : List ExportSpecNode) (st : ModuleInfo) : ModuleInfo :=
  let p := specifiers.foldl localSpecStep ([], st)
  { p.2 with transformations := p.2.transformations ++ [⟨nstart, nstop, trimWs p.1⟩] }

/-- `processNamedExport` from the source. -/
def processNamedExport (cwd filePath : Str) (nstart nstop : Nat)
    (decl : Option ExportDecl) (specifiers : List ExportSpecNode)
    (source : Option Str) (st : ModuleInfo) : ModuleInfo :=
  match decl with
  | some d => processExportDeclaration nstart d st
  | none =>
    if specifiers.isEmpty then st
    else
      match source with
      | some sv => processReExports cwd filePath nstart nstop specifiers sv st
      | none => processLocalExportSpecifiers nstart nstop specifiers st

/-- `processDefaultExport` from the source. -/
def processDefaultExport (content : Str) (nstart nstop : Nat)
    (decl : DefaultDecl) (st : ModuleInfo) : ModuleInfo :=
  let st := { st with exportsD :=
    { st.exportsD with defaultE := some (strOf "_default_export_") } }
  match decl with
  | .identDecl name =>
    { st with exportsD := { st.exportsD with defaultE := some name },
              transformations := st.transformations ++
                [⟨nstart, nstop, strOf "exports.default = " ++ name ++ strOf ";"⟩] }
  | .funMaybeNamed (some name) _ _ =>
    { st with exportsD := { st.exportsD with defaultE := some name },
              transformations := st.transformations ++
                [⟨nstart, nstart + (strOf "export default ").length, []⟩],
              additionalExports := st.additionalExports ++
                [strOf "exports.default = " ++ name ++ strOf ";"] }
  | .classMaybeNamed (some name) _ _ =>
    { st with exportsD := { st.exportsD with defaultE := some name },
              transformations := st.transformations ++
                [⟨nstart, nstart + (strOf "export default ").length, []⟩],
              additionalExports := st.additionalExports ++
                [strOf "exports.default = " ++ name ++ strOf ";"] }
  | .funMaybeNamed none ds de =>
    { st with transformations := st.transformations ++
        [⟨nstart, nstop, strOf "exports.default = " ++ substrRange content ds de ++ strOf ";"⟩] }
  | .classMaybeNamed none ds de =>
    { st with transformations := st.transformations ++
        [⟨nstart, nstop, strOf "exports.default = " ++ substrRange content ds de ++ strOf ";"⟩] }
  | .exprDecl ds de =>
    { st with transformations := st.transformations ++
        [⟨nstart, nstop, strOf "exports.default = " ++ substrRange content ds de ++ strOf ";"⟩] }

/-- Dispatch of `walk.simple`'s three handlers for one node. -/
def processNode (cwd content filePath : Str) (st : ModuleInfo) : JsNode → ModuleInfo
  | .importNode a b src specs => processImport cwd content filePath a b src specs st
  | .exportNamedNode a b decl specs src =>
    processNamedExport cwd filePath a b decl specs src st
  | .exportDefaultNode a b decl => processDefaultExport content a b decl st

/-- `analyzeModule` from the source: one walk over the AST in source order. -/
def analyzeModule (cwd : Str) (ast : List JsNode) (content filePath : Str) : ModuleInfo :=
  ast.foldl (processNode cwd content filePath) initInfo

/-! ## Filesystem model, reader/parser, and the dependency graph builder -/

/-- Outcome of reading-and-parsing a path: `unreadable` models an I/O failure
of `fs.readFileSync`, `parseFail` a file whose text `acorn.parse` rejects,
and `parsed` a file with its source text and the AST acorn produces. -/
inductive FileEntry
  | unreadable
  | parseFail (content : Str)
  | parsed (content : Str) (ast : List JsNode)
deriving DecidableEq, Repr

abbrev FS := List (Str × FileEntry)

inductive BErr
  /-- `fs.readFileSync` threw for this canonical key. -/
  | moduleReadError (key : Str)
  /-- `acorn.parse` threw for this canonical key. -/
  | parseError (key : Str)
  /-- An arbitrary JS exception value (as thrown by a plugin hook). -/
  | thrown (msg : Str)
  /-- Modelled from the spec: a *PluginError* wrapping plugin name and phase.
  The source defines no such error class and never constructs one; the
  constructor exists so the claim about it can be stated. -/
  | pluginWrapped (name phase msg : Str)
  /-- Fuel exhaustion of the recursion model (never surfaces with the fuel
  the embedded `bundle` supplies). -/
  | fuelOut
deriving DecidableEq, Repr

/-- `readModule` from the source: read, parse, analyze; the id is taken from
the bundler's `moduleId` counter (incremented by the caller only on success,
as the JS `this.moduleId++` runs after both fallible steps). -/
def readModule (fs : FS) (cwd filePath : Str) (nextId : Nat) : Except BErr JsModule :=
  match List.lookup filePath fs with
  | none => .error (.moduleReadError filePath)
  | some .unreadable => .error (.moduleReadError filePath)
  | some (.parseFail _) => .error (.parseError filePath)
  | some (.parsed content ast) =>
    let info := analyzeModule cwd ast content filePath
    .ok ⟨nextId, filePath, content, info.dependencies, info.imports, info.exportsD,
         info.transformations, info.additionalExports, info.processedExports⟩

/-- Mutable bundler state during graph construction: the module map in
insertion order, the id counter, and the `console.warn` log. -/
structure GSt where
  modules : List (Str × JsModule)
  nextId : Nat
  warnings : List Str
deriving DecidableEq, Repr

def initGSt : GSt := ⟨[], 0, []⟩

def lookupMod (mods : List (Str × JsModule)) (key : Str) : Option JsModule :=
  List.lookup key mods

/-- The `console.warn` text of `buildDependencyGraph`'s per-dependency catch. -/
def warnMsg (dep filePath : Str) : Str :=
  strOf "Warning: Could not resolve dependency \x27" ++ dep ++
    strOf "\x27 from " ++ filePath

/-- The body of `buildDependencyGraph`'s dependency loop for one dependency,
parametrized by the recursive call `recur`: skip empty or non-local
specifiers, resolve, and recurse inside the per-dependency `try`/`catch`
that downgrades any thrown error to a `console.warn` entry (keeping the
state mutated so far). -/
def depStep (cwd filePath : Str) (recur : Str → GSt → GSt × Option BErr)
    (acc : GSt) (dep : Str) : GSt :=
  if dep.isEmpty || !isLocalModule dep then acc
  else
    let absolutePath := resolveDependencyPath cwd filePath dep
    if (lookupMod acc.modules absolutePath).isSome then acc
    else
      match recur absolutePath acc with
      | (st2, none) => st2
      | (st2, some _) =>
        { st2 with warnings := st2.warnings ++ [warnMsg dep filePath] }

/-- `buildDependencyGraph` from the source, with explicit fuel standing in
for the unbounded recursion.  A module read/parse failure propagates out of
the call for the module itself, while each recursive call sits inside the
importer's per-dependency `try`/`catch`, which records a warning and
continues.  State mutations made before a throw persist. -/
def buildDependencyGraph (fs : FS) (cwd : Str) : Nat → Str → GSt → GSt × Option BErr
  | 0, _, st => (st, some .fuelOut)
  | fuel + 1, filePath, st =>
    if (lookupMod st.modules filePath).isSome then (st, none)
    else
      match readModule fs cwd filePath st.nextId with
      | .error e => (st, some e)
      | .ok m =>
        let st1 : GSt := ⟨st.modules ++ [(filePath, m)], st.nextId + 1, st.warnings⟩
        (m.dependencies.foldl
          (depStep cwd filePath (fun k s => buildDependencyGraph fs cwd fuel k s)) st1,
         none)

/-! ## Plugin host -/

inductive PluginPhase
  | preTransform
  | postTransform
  | bundlePhase
deriving DecidableEq, Repr

/-- A plugin: a name and, per phase, an optional (possibly failing) hook
receiving the text and the `moduleInfo` argument (`none` models the empty
object passed at the bundle phase). -/
structure Plugin where
  name : Str
  hooks : PluginPhase → Option (Str → Option JsModule → Except BErr Str)

/-- `applyPlugins` from the source: fold the configured plugins in order,
awaiting each hook; a hook's rejection propagates as-is. -/
def applyPlugins (plugins : List Plugin) (phase : PluginPhase) (content : Str)
    (minfo : Option JsModule) : Except BErr Str :=
  match plugins with
  | [] => .ok content
  | p :: ps =>
    match p.hooks phase with
    | none => applyPlugins ps phase content minfo
    | some h =>
      match h content minfo with
      | .error e => .error e
      | .ok c => applyPlugins ps phase c minfo

/-! ## Module transformer -/

/-- Insert into a start-descending list (stable for equal starts), modelling
`[...].sort((a, b) => b.start - a.start)`. -/
def insDesc (e : Edit) : List Edit → List Edit
  | [] => [e]
  | f :: fs => if e.start ≥ f.start then e :: f :: fs else f :: insDesc e fs

def sortDescEdits (l : List Edit) : List Edit := l.foldr insDesc []

/-- Apply already-sorted edits left to right, each by
`content.substring(0, start) + replacement + content.substring(end)`. -/
def applyEditsSorted (content : Str) (edits : List Edit) : Str :=
  edits.foldl (fun acc e => acc.take e.start ++ e.repl ++ acc.drop e.stop) content

/-- The edit-application stage of `transformModuleContent`: sort the module's
transformations by descending start, then splice each replacement in. -/
def applyTransformations (content : Str) (ts : List Edit) : Str :=
  applyEditsSorted content (sortDescEdits ts)

/-- The trailing export assignments appended after the edits: the scheduled
`additionalExports` plus one `exports.n = n;` for every exported name not in
the satisfied-set. -/
def trailingExports (m : JsModule) : List Str :=
  m.additionalExports ++
    (m.exportsD.named.filter (fun e => decide (e ∉ m.processedExports))).map
      (fun e => strOf "exports." ++ e ++ strOf " = " ++ e ++ strOf ";")

/-- `transformModuleContent` from the source. -/
def transformModuleContent (plugins : List Plugin) (m : JsModule) : Except BErr Str :=
  match applyPlugins plugins .preTransform m.content (some m) with
  | .error e => .error e
  | .ok pre =>
    let t := applyTransformations pre m.transformations
    let addl := trailingExports m
    let t2 := if addl.isEmpty then t else t ++ strOf "\n" ++ joinSep (strOf "\n") addl
    applyPlugins plugins .postTransform t2 (some m)

/-! ## Bundle emitter -/

/-- `generateBundleRuntime` from the source: the trimmed runtime prelude
text followed by two newlines. -/
def generateBundleRuntime : Str := strOf
  ("(function(modules) \x7b\n  // The require function: loads modules and caches them\n  function require(moduleId) \x7b\n    // Check if module is in cache\n    if (require.cache[moduleId]) return require.cache[moduleId].exports;\n\n    // Create a new module and add to cache\n    const module = \x7b exports: \x7b\x7d \x7d;\n    require.cache[moduleId] = module;\n\n    // If module doesn\x27t exist, throw error\n    if (!modules[moduleId]) \x7b\n      throw new Error(\x22Module not found: \x22 + moduleId);\n    \x7d\n\n    // Execute the module function\n    modules[moduleId](module, module.exports, require);\n\n    // Return the exports object\n    return module.exports;\n  \x7d\n\n  // Module cache object\n  require.cache = \x7b\x7d;\n\n")

/-- The `Promise.all(moduleEntries.map(...))` of `generateBundle`: transform
every module (in insertion order) pairing it with its `./`-relative path;
the first rejection propagates. -/
def transformAllModules (plugins : List Plugin) (cwd : Str) :
    List (Str × JsModule) → Except BErr (List (Str × Str))
  | [] => .ok []
  | (_, m) :: rest =>
    match transformModuleContent plugins m with
    | .error e => .error e
    | .ok c =>
      match transformAllModules plugins cwd rest with
      | .error e => .error e
      | .ok tms => .ok ((strOf "./" ++ pathRelative cwd m.filePath, c) :: tms)

/-- `generateBundle` from the source: runtime prelude, module table in
discovery order, entry invocation. -/
def generateBundle (plugins : List Plugin) (cwd : Str) (mods : List (Str × JsModule))
    (entryFile : Str) : Except BErr Str :=
  match transformAllModules plugins cwd mods with
  | .error e => .error e
  | .ok tms =>
    let body := tms.foldl (fun acc pc =>
      acc ++ strOf "    \x22" ++ pc.1 ++
        strOf "\x22: function(module, exports, require) \x7b\n      " ++ pc.2 ++
        strOf "\n    \x7d,\n") []
    let relativeEntryPath := strOf "./" ++ pathRelative cwd entryFile
    .ok (generateBundleRuntime ++ strOf "  var modules = \x7b\n" ++ body ++
      strOf "  \x7d;\n\n  require(\x22" ++ relativeEntryPath ++ strOf "\x22);\n\x7d)();\n")

/-! ## Configuration and the bundle entry point -/

structure BundlerConfig where
  entry : Str
  output : Option Str
  plugins : List Plugin

structure NormalizedConfig where
  entry : Str
  output : Str
  plugins : List Plugin

/-- JS `a || d` on an optional string (absent or empty falls back). -/
def jsOrDefault (o : Option Str) (d : Str) : Str :=
  match o with
  | none => d
  | some s => if s.isEmpty then d else s

/-- `normalizeConfig` from the source. -/
def normalizeConfig (cwd : Str) (cfg : BundlerConfig) : NormalizedConfig :=
  ⟨pathResolve cwd cwd cfg.entry,
   pathResolve cwd cwd (jsOrDefault cfg.output (strOf "dist/bundle.js")),
   cfg.plugins⟩

/-- JS truthiness of the optional `outputFile` argument. -/
def jsTruthyStr : Option Str → Bool
  | none => false
  | some s => !s.isEmpty

/-- Fuel that dominates the recursion depth of graph construction (the graph
can hold at most one module per filesystem path). -/
def fuelOf (fs : FS) : Nat := fs.length + 1

/-- `bundle(outputFile)` from the source: build the graph, generate the
bundle, run bundle-phase plugins, then write once if `outputFile` is truthy.
The second component is the `fs.writeFileSync` log of the call. -/
def bundleFn (fs : FS) (cwd : Str) (cfg : BundlerConfig) (outputFile : Option Str) :
    Except BErr Str × List (Str × Str) :=
  let ncfg := normalizeConfig cwd cfg
  let entryFile := ncfg.entry
  match buildDependencyGraph fs cwd (fuelOf fs) entryFile initGSt with
  | (_, some e) => (.error e, [])
  | (st, none) =>
    match generateBundle ncfg.plugins cwd st.modules entryFile with
    | .error e => (.error e, [])
    | .ok bundleContent =>
      match applyPlugins ncfg.plugins .bundlePhase bundleContent none with
      | .error e => (.error e, [])
      | .ok finalContent =>
        (.ok finalContent,
         if jsTruthyStr outputFile then [(outputFile.getD [], finalContent)] else [])

/-! ## Semantics of the emitted runtime

A shallow embedding of the `require` function the bundle emits
(`generateBundleRuntime`): the cache maps keys to exports-object identities
(allocated as numbers), and a module body is abstracted to the sequence of
`require` calls it performs. -/

structure RtState where
  cache : List (Str × Nat)
  nextExports : Nat
deriving DecidableEq, Repr

abbrev RtModules := List (Str × List Str)

/-- One `require` performed by a module body: earlier failures abort the
rest of the body; otherwise the dependency is required with the supplied
interpreter. -/
def bodyStep (req : Str → RtState → RtState × Except Str Nat)
    (acc : RtState × Except Str Nat) (dep : Str) : RtState × Except Str Nat :=
  match acc.2 with
  | .error _ => acc
  | .ok _ =>
    match req dep acc.1 with
    | (st2, .error e2) => (st2, .error e2)
    | (st2, .ok _) => (st2, .ok 0)

/-- The emitted `require(moduleId)`: return the cached exports if present;
otherwise allocate a fresh exports record, cache it *before* the existence
check and body execution, throw a plain `Module not found` error when the
modules table lacks the key, else run the body and return the exports
object. -/
def requireRun (mods : RtModules) : Nat → Str → RtState → RtState × Except Str Nat
  | 0, _, st => (st, .error (strOf "fuel exhausted"))
  | fuel + 1, moduleId, st =>
    match List.lookup moduleId st.cache with
    | some e => (st, .ok e)
    | none =>
      let eid := st.nextExports
      let st1 : RtState := ⟨st.cache ++ [(moduleId, eid)], st.nextExports + 1⟩
      match List.lookup moduleId mods with
      | none => (st1, .error (strOf "Module not found: " ++ moduleId))
      | some body =>
        let p := body.foldl (bodyStep (fun k s => requireRun mods fuel k s)) (st1, .ok 0)
        match p.2 with
        | .error e => (p.1, .error e)
        | .ok _ => (p.1, .ok eid)

/-! ## Concrete example inputs -/

/-- Fallback record (never reached on the examples below). -/
def dummyModule : JsModule := ⟨0, [], [], [], [], ⟨[], none⟩, [], [], []⟩

/-- `/w/main.js` importing a file that does not exist:
`import { x } from './missing.js';` followed by a plain statement. -/
def exMissContent : Str :=
  strOf "import \x7b x \x7d from \x27./missing.js\x27;\nconsole.log(x);"

def exMissAst : List JsNode :=
  [.importNode 0 33 (some (strOf "./missing.js")) [.namedSpec (strOf "x") (strOf "x")]]

def exMissFs : FS := [(strOf "/w/main.js", .parsed exMissContent exMissAst)]

def exMissRun : GSt × Option BErr :=
  buildDependencyGraph exMissFs (strOf "/w") (fuelOf exMissFs) (strOf "/w/main.js") initGSt

/-- A healthy two-module project: the entry imports `x` from `./a.js`. -/
def exGoodMain : Str := strOf "import \x7b x \x7d from \x27./a.js\x27;\nconsole.log(x);"

def exGoodA : Str := strOf "export const x = 1;"

def exGoodFs : FS :=
  [(strOf "/w/main.js", .parsed exGoodMain
      [.importNode 0 27 (some (strOf "./a.js")) [.namedSpec (strOf "x") (strOf "x")]]),
   (strOf "/w/a.js", .parsed exGoodA
      [.exportNamedNode 0 19 (some (.varDecl [some (strOf "x")])) [] none])]

def exGoodCfg : BundlerConfig := ⟨strOf "main.js", none, []⟩

def exGoodRun : GSt × Option BErr :=
  buildDependencyGraph exGoodFs (strOf "/w") (fuelOf exGoodFs) (strOf "/w/main.js") initGSt

/-- A module consisting of the single declaration
`export { x as y } from './a.js';` (spans match acorn's). -/
def exReexContent : Str := strOf "export \x7b x as y \x7d from \x27./a.js\x27;"

def exReexAst : List JsNode :=
  [.exportNamedNode 0 32 none [⟨strOf "y", strOf "x"⟩] (some (strOf "./a.js"))]

def exReexFs : FS := [(strOf "/w/b.js", .parsed exReexContent exReexAst)]

def exReexMod : JsModule :=
  match readModule exReexFs (strOf "/w") (strOf "/w/b.js") 0 with
  | .ok m => m
  | .error _ => dummyModule

/-- The transformed body the bundler emits for `exReexMod`. -/
def exReexOut : Str := strOf
  "const _require___a_js = require(\x22./a.js\x22);\nexports.y = _require___a_js.x;\nexports.y = y;"

/-- Entry path supplied without a `.js` suffix. -/
def exC8Fs : FS := [(strOf "/work/src/index", .parsed (strOf "console.log(1);") [])]

def exC8Cfg : BundlerConfig := ⟨strOf "src/index", none, []⟩

def exC8Run : GSt × Option BErr :=
  buildDependencyGraph exC8Fs (strOf "/work") (fuelOf exC8Fs)
    (normalizeConfig (strOf "/work") exC8Cfg).entry initGSt

/-- Is the error a (spec-modelled) `PluginError` wrapper? -/
def isPluginWrappedErr : BErr → Bool
  | .pluginWrapped _ _ _ => true
  | _ => false

/-- A plugin whose `bundle` hook always rejects with a plain thrown value. -/
def exBoomPlugin : Plugin :=
  ⟨strOf "p1", fun ph =>
    match ph with
    | .bundlePhase => some (fun _ _ => .error (.thrown (strOf "boom")))
    | _ => none⟩

/-- The final bundle text of the healthy example project. -/
def exGoodOut : Str :=
  match (bundleFn exGoodFs (strOf "/w") exGoodCfg none).1 with
  | .ok c => c
  | .error _ => []

/-- The module record the example graph holds for `/w/a.js`. -/
def exGoodModA : JsModule :=
  (lookupMod exGoodRun.1.modules (strOf "/w/a.js")).getD dummyModule

/-- The module record the example graph holds for `/w/main.js`. -/
def exGoodModMain : JsModule :=
  (lookupMod exGoodRun.1.modules (strOf "/w/main.js")).getD dummyModule

/-- The single import record of the example entry module. -/
def exGoodImp : ImportInfo :=
  exGoodModMain.imports.getD 0 ⟨[], none, none, [], [], []⟩

/-! ## Specification-side definitions used by the theorems -/

/-- Well-formed edit list relative to a text: listed in ascending order,
pairwise non-overlapping (`e.stop ≤` next start), each span nonempty and
within bounds. -/
def editsOK (s : Str) : Nat → List Edit → Bool
  | _, [] => true
  | pos, e :: rest =>
    decide (pos ≤ e.start) && decide (e.start < e.stop) &&
      decide (e.stop ≤ s.length) && editsOK s e.stop rest

/-- The intended result of applying ascending disjoint edits: alternate the
untouched gap `[pos, e.start)` of the original text with each replacement. -/
def rebuildFrom (s : Str) (pos : Nat) : List Edit → Str
  | [] => s.drop pos
  | e :: rest => (s.take e.start).drop pos ++ e.repl ++ rebuildFrom s e.stop rest

/-- Well-formedness the analyzer guarantees: every recorded import's
specifier is also a recorded dependency and is local. -/
def ImportsOK (imports : List ImportInfo) (deps : List Str) : Prop :=
  ∀ imp ∈ imports, imp.path ∈ deps ∧ isLocalModule imp.path = true

/-- An import of the module at `fp` is accounted for in state `st`: its
resolved key is present in the graph, or its failure was downgraded to the
corresponding `console.warn` entry. -/
def OKimp (cwd : Str) (st : GSt) (fp : Str) (imp : ImportInfo) : Prop :=
  (lookupMod st.modules (resolveDependencyPath cwd fp imp.path)).isSome = true ∨
    warnMsg imp.path fp ∈ st.warnings

/-! ## Claim counterexamples and code-bug evaluations -/

/-- Claim C1, counterexample: with `exMissFs` the entry imports
`./missing.js`, whose read fails with a `ModuleReadError`; yet
`buildDependencyGraph` returns without propagating any error — the failure
is downgraded to the importer's `console.warn` message and the dependency is
simply absent from the graph, so the bundle does not fail. -/
theorem C1_counterexample :
    exMissRun.2 = none ∧
    exMissRun.1.warnings = [warnMsg (strOf "./missing.js") (strOf "/w/main.js")] ∧
    readModule exMissFs (strOf "/w") (strOf "/w/missing.js") 1 =
      .error (.moduleReadError (strOf "/w/missing.js")) ∧
    lookupMod exMissRun.1.modules (strOf "/w/missing.js") = none := by
  exact ⟨rfl, rfl, rfl, rfl⟩

/-- Claim C2 (code bug): for `export \x7b x as y \x7d from './a.js'` the
re-export declaration is replaced by the alias require plus the per-name
assignment `exports.y = _require___a_js.x;`, but `processReExports` never
adds `y` to the satisfied-set, so `transformModuleContent` appends a trailing
`exports.y = y;` whose right-hand identifier `y` is bound nowhere in the
transformed body (no `const/let/var/function/class y` exists), making the
module body throw a `ReferenceError` when executed. -/
theorem C2_reexport_rename_appends_unbound_assignment :
    transformModuleContent [] exReexMod = .ok exReexOut ∧
    trailingExports exReexMod = [strOf "exports.y = y;"] ∧
    exReexMod.processedExports = [] ∧
    exReexMod.exportsD.named = [strOf "y"] ∧
    (isSubstr (strOf "const y") exReexOut ||
     isSubstr (strOf "let y") exReexOut ||
     isSubstr (strOf "var y") exReexOut ||
     isSubstr (strOf "function y") exReexOut ||
     isSubstr (strOf "class y") exReexOut) = false := by
  exact ⟨rfl, rfl, rfl, rfl, rfl⟩

/-- Claim C3, counterexample: the first `require` of a key absent from the
modules table throws `Module not found`, but it caches the fresh empty
exports record *before* the existence check; a second `require` of the very
same absent key therefore hits the cache and returns that exports object
without any error — not every call with an absent key fails. -/
theorem C3_counterexample :
    requireRun [] 1 (strOf "./m.js") ⟨[], 0⟩ =
      (⟨[(strOf "./m.js", 0)], 1⟩, .error (strOf "Module not found: ./m.js")) ∧
    requireRun [] 1 (strOf "./m.js") ⟨[(strOf "./m.js", 0)], 1⟩ =
      (⟨[(strOf "./m.js", 0)], 1⟩, .ok 0) := by
  exact ⟨rfl, rfl⟩

/-- Claim C4, counterexample: after `buildDependencyGraph` completes on
`exMissFs`, the entry's module record holds a local import whose specifier
`./missing.js` resolves to `/w/missing.js`, a key not present in the graph
mapping — the closure invariant fails when a dependency file cannot be
read. -/
theorem C4_counterexample :
    exMissRun.2 = none ∧
    (match lookupMod exMissRun.1.modules (strOf "/w/main.js") with
     | some m => m.imports.map (fun i => i.path)
     | none => []) = [strOf "./missing.js"] ∧
    isLocalModule (strOf "./missing.js") = true ∧
    resolveDependencyPath (strOf "/w") (strOf "/w/main.js") (strOf "./missing.js") =
      strOf "/w/missing.js" ∧
    lookupMod exMissRun.1.modules (strOf "/w/missing.js") = none := by
  exact ⟨rfl, rfl, rfl, rfl, rfl⟩

/-- Claim C5, counterexample: a plugin hook that rejects with the plain
thrown value `boom` makes `applyPlugins` propagate exactly that value — the
error is not wrapped into any *PluginError* carrying plugin name and
phase (the source defines no such wrapper at all). -/
theorem C5_counterexample :
    applyPlugins [exBoomPlugin] .bundlePhase (strOf "code") none =
      .error (.thrown (strOf "boom")) ∧
    isPluginWrappedErr (.thrown (strOf "boom")) = false := by
  exact ⟨rfl, rfl⟩

/-- Claim C6, counterexample: rewriting the external declaration
`import \x7b fromJson \x7d from "lib"` replaces the *first* occurrence of the
substring `from`, which lies inside the identifier `fromJson`; the result
`const \x7b =Json \x7d from require("lib");` no longer binds `fromJson` (the
identifier does not even occur in it), so the original binding shape is not
preserved for all identifier names. -/
theorem C6_counterexample :
    externalImportReplacement (strOf "import \x7b fromJson \x7d from \x22lib\x22") =
      strOf "const \x7b =Json \x7d from require(\x22lib\x22);" ∧
    isSubstr (strOf "fromJson") (strOf "import \x7b fromJson \x7d from \x22lib\x22") = true ∧
    isSubstr (strOf "fromJson") (strOf "const \x7b =Json \x7d from require(\x22lib\x22);") = false := by
  exact ⟨rfl, rfl, rfl⟩

/-- Claim C8, counterexample: with `config.entry = "src/index"` the
normalized entry key is `/work/src/index`, which carries no `.js` suffix,
and the completed graph holds exactly this key — not every graph key is a
`.js`-suffixed path for every entry the configuration may supply. -/
theorem C8_counterexample :
    (normalizeConfig (strOf "/work") exC8Cfg).entry = strOf "/work/src/index" ∧
    exC8Run.2 = none ∧
    exC8Run.1.modules.map Prod.fst = [strOf "/work/src/index"] ∧
    (strOf ".js").isSuffixOf (strOf "/work/src/index") = false := by
  exact ⟨rfl, rfl, rfl, rfl⟩

/-! ## Generic lookup lemmas -/

lemma lookup_append_some {α β : Type} [BEq α] (k : α) (l t : List (α × β)) (v : β)
    (h : List.lookup k l = some v) : List.lookup k (l ++ t) = some v := by
  induction l with
  | nil => simp [List.lookup] at h
  | cons a l ih =>
    rcases a with ⟨a1, a2⟩
    simp only [List.lookup, List.cons_append] at h ⊢
    cases hk : k == a1 with
    | true => simpa [hk] using h
    | false =>
      rw [hk] at h
      simpa [hk] using ih h

lemma lookup_append_none {α β : Type} [BEq α] (k : α) (l t : List (α × β))
    (h : List.lookup k l = none) : List.lookup k (l ++ t) = List.lookup k t := by
  induction l with
  | nil => simp
  | cons a l ih =>
    rcases a with ⟨a1, a2⟩
    simp only [List.lookup, List.cons_append] at h ⊢
    cases hk : k == a1 with
    | true => rw [hk] at h; simp at h
    | false => rw [hk] at h; simpa [hk] using ih h

lemma lookup_cons_self {α β : Type} [BEq α] [ReflBEq α] (k : α) (v : β)
    (t : List (α × β)) : List.lookup k ((k, v) :: t) = some v := by
  simp [List.lookup]

/-! ## Shape of a bundle call -/

lemma bundleFn_cases (fs : FS) (cwd : Str) (cfg : BundlerConfig) (o : Option Str) :
    (∃ e, bundleFn fs cwd cfg o = (.error e, [])) ∨
    (∃ c, bundleFn fs cwd cfg o =
      (.ok c, if jsTruthyStr o then [(o.getD [], c)] else [])) := by
  cases h1 : buildDependencyGraph fs cwd (fuelOf fs) (normalizeConfig cwd cfg).entry
      initGSt with
  | mk st r =>
    cases r with
    | some e => exact Or.inl ⟨e, by simp [bundleFn, h1]⟩
    | none =>
      cases h2 : generateBundle (normalizeConfig cwd cfg).plugins cwd st.modules
          (normalizeConfig cwd cfg).entry with
      | error e => exact Or.inl ⟨e, by simp [bundleFn, h1, h2]⟩
      | ok bc =>
        cases h3 : applyPlugins (normalizeConfig cwd cfg).plugins .bundlePhase bc none with
        | error e => exact Or.inl ⟨e, by simp [bundleFn, h1, h2, h3]⟩
        | ok fc => exact Or.inr ⟨fc, by simp [bundleFn, h1, h2, h3]⟩

lemma bundleFn_fst_indep (fs : FS) (cwd : Str) (cfg : BundlerConfig)
    (o o' : Option Str) : (bundleFn fs cwd cfg o).1 = (bundleFn fs cwd cfg o').1 := by
  cases h1 : buildDependencyGraph fs cwd (fuelOf fs) (normalizeConfig cwd cfg).entry
      initGSt with
  | mk st r =>
    cases r with
    | some e => simp [bundleFn, h1]
    | none =>
      cases h2 : generateBundle (normalizeConfig cwd cfg).plugins cwd st.modules
          (normalizeConfig cwd cfg).entry with
      | error e => simp [bundleFn, h1, h2]
      | ok bc =>
        cases h3 : applyPlugins (normalizeConfig cwd cfg).plugins .bundlePhase bc none with
        | error e => simp [bundleFn, h1, h2, h3]
        | ok fc => simp [bundleFn, h1, h2, h3]

/-- Claim C9: with a truthy output path, a bundle call's write log is exactly
one write — of the output path and the final content — and it occurs only in
the success continuation after graph construction, module transforms, bundle
generation and all plugin phases; if any stage fails, the write log is
empty. -/
theorem C9_single_write_at_end :
    ∀ (fs : FS) (cwd : Str) (cfg : BundlerConfig) (o : Option Str),
      jsTruthyStr o = true →
      (∀ c, (bundleFn fs cwd cfg o).1 = .ok c →
        (bundleFn fs cwd cfg o).2 = [(o.getD [], c)]) ∧
      (∀ e, (bundleFn fs cwd cfg o).1 = .error e → (bundleFn fs cwd cfg o).2 = []) := by
  intro fs cwd cfg o ht
  rcases bundleFn_cases fs cwd cfg o with ⟨e, he⟩ | ⟨c, hc⟩
  · constructor
    · intro c' hc'
      rw [he] at hc'
      simp at hc'
    · intro e' _
      rw [he]
  · constructor
    · intro c' hc'
      rw [hc] at hc'
      simp only at hc'
      cases hc'
      rw [hc]
      simp [ht]
    · intro e' he'
      rw [hc] at he'
      simp at he'

/-- Claim C9 witness: the healthy example project with output
`dist/bundle.js` logs exactly the one final write. -/
theorem C9_witness :
    jsTruthyStr (some (strOf "dist/bundle.js")) = true ∧
    (bundleFn exGoodFs (strOf "/w") exGoodCfg (some (strOf "dist/bundle.js"))).2 =
      [(strOf "dist/bundle.js", exGoodOut)] := by
  refine ⟨rfl, ?_⟩
  exact (C9_single_write_at_end exGoodFs (strOf "/w") exGoodCfg
    (some (strOf "dist/bundle.js")) rfl).1 exGoodOut rfl

/-- Claim C10: with a falsy `outputFile` (absent or empty) a bundle call
performs no write at all, and the returned result — the complete final
bundle text — is the same as with any other `outputFile` argument. -/
theorem C10_no_write_without_output :
    ∀ (fs : FS) (cwd : Str) (cfg : BundlerConfig) (o : Option Str),
      jsTruthyStr o = false →
      (bundleFn fs cwd cfg o).2 = [] ∧
      (bundleFn fs cwd cfg o).1 = (bundleFn fs cwd cfg (some (strOf "out.js"))).1 := by
  intro fs cwd cfg o ht
  constructor
  · rcases bundleFn_cases fs cwd cfg o with ⟨e, he⟩ | ⟨c, hc⟩
    · rw [he]
    · rw [hc]
      simp [ht]
  · exact bundleFn_fst_indep fs cwd cfg o (some (strOf "out.js"))

/-- Claim C10 witness: bundling the example project with no output argument
writes nothing and returns the same text a writing call produces. -/
theorem C10_witness :
    (bundleFn exGoodFs (strOf "/w") exGoodCfg none).2 = [] ∧
    (bundleFn exGoodFs (strOf "/w") exGoodCfg none).1 =
      (bundleFn exGoodFs (strOf "/w") exGoodCfg (some (strOf "out.js"))).1 :=
  C10_no_write_without_output exGoodFs (strOf "/w") exGoodCfg none rfl

/-- Claim C1 (amended): an error propagates out of `buildDependencyGraph`
exactly when reading or parsing the *argument* module itself fails — for a
fresh key the call returns that error; conversely any propagated error is
the entry's own read/parse error.  Transitive dependency failures never
escape: they are caught by the importer's per-dependency handler (see the
counterexample). -/
theorem C1_only_entry_errors_fatal :
    ∀ (fs : FS) (cwd : Str) (fuel : Nat) (key : Str) (st : GSt),
      (∀ e, (buildDependencyGraph fs cwd (fuel + 1) key st).2 = some e →
        lookupMod st.modules key = none ∧
        readModule fs cwd key st.nextId = .error e) ∧
      (∀ e, lookupMod st.modules key = none →
        readModule fs cwd key st.nextId = .error e →
        buildDependencyGraph fs cwd (fuel + 1) key st = (st, some e)) := by
  intro fs cwd fuel key st
  constructor
  · intro e he
    unfold buildDependencyGraph at he
    split at he
    · simp at he
    · rename_i hlk
      split at he
      · rename_i e' hre
        simp only at he
        cases he
        exact ⟨Option.not_isSome_iff_eq_none.mp hlk, hre⟩
      · simp at he
  · intro e hlk hre
    unfold buildDependencyGraph
    rw [hlk]
    simp [hre]

/-- Claim C1 witness: a bundle whose entry itself cannot be read fails with
that `ModuleReadError`. -/
theorem C1_witness :
    buildDependencyGraph exMissFs (strOf "/w") 1 (strOf "/w/missing.js") initGSt =
      (initGSt, some (.moduleReadError (strOf "/w/missing.js"))) :=
  (C1_only_entry_errors_fatal exMissFs (strOf "/w") 0 (strOf "/w/missing.js")
    initGSt).2 (.moduleReadError (strOf "/w/missing.js")) rfl rfl

/-! ## Runtime require: cache monotonicity -/

lemma bodyFold_cache_mono
    (req : Str → RtState → RtState × Except Str Nat)
    (hreq : ∀ k s, ∃ t, (req k s).1.cache = s.cache ++ t) :
    ∀ (body : List Str) (acc : RtState × Except Str Nat),
      ∃ t, (body.foldl (bodyStep req) acc).1.cache = acc.1.cache ++ t := by
  intro body
  induction body with
  | nil => intro acc; exact ⟨[], by simp⟩
  | cons d body ih =>
    intro acc
    rcases acc with ⟨s, r⟩
    cases r with
    | error e =>
      rcases ih ((s, Except.error e) : RtState × Except Str Nat) with ⟨t2, ht2⟩
      refine ⟨t2, ?_⟩
      simp only [List.foldl_cons, bodyStep]
      exact ht2
    | ok v =>
      rcases hreq d s with ⟨t1, ht1⟩
      cases hr : req d s with
      | mk s2 r2 =>
        rw [hr] at ht1
        simp only at ht1
        cases r2 with
        | error e2 =>
          rcases ih ((s2, Except.error e2) : RtState × Except Str Nat) with ⟨t2, ht2⟩
          refine ⟨t1 ++ t2, ?_⟩
          simp only [List.foldl_cons, bodyStep, hr]
          simp only at ht2
          rw [ht2, ht1, List.append_assoc]
        | ok v2 =>
          rcases ih ((s2, Except.ok 0) : RtState × Except Str Nat) with ⟨t2, ht2⟩
          refine ⟨t1 ++ t2, ?_⟩
          simp only [List.foldl_cons, bodyStep, hr]
          simp only at ht2
          rw [ht2, ht1, List.append_assoc]

lemma requireRun_cache_mono (mods : RtModules) :
    ∀ (fuel : Nat) (key : Str) (st : RtState),
      ∃ t, (requireRun mods fuel key st).1.cache = st.cache ++ t := by
  intro fuel
  induction fuel with
  | zero => intro key st; exact ⟨[], by simp [requireRun]⟩
  | succ fuel ih =>
    intro key st
    unfold requireRun
    cases hc : List.lookup key st.cache with
    | some e => exact ⟨[], by simp⟩
    | none =>
      cases hm : List.lookup key mods with
      | none => exact ⟨[(key, st.nextExports)], by simp⟩
      | some body =>
        rcases bodyFold_cache_mono (fun k s => requireRun mods fuel k s)
          (fun k s => ih k s) body
          (⟨st.cache ++ [(key, st.nextExports)], st.nextExports + 1⟩, .ok 0) with ⟨t, ht⟩
        refine ⟨[(key, st.nextExports)] ++ t, ?_⟩
        rcases hp : (body.foldl (bodyStep fun k s => requireRun mods fuel k s)
            (⟨st.cache ++ [(key, st.nextExports)], st.nextExports + 1⟩, .ok 0)) with ⟨s2, r2⟩
        rw [hp] at ht
        simp only at ht
        simp only [hp]
        cases r2 with
        | error e2 => simpa using ht
        | ok v2 => simpa using ht

/-- Claim C3 (amended): in the emitted runtime, a `require` of a cached key
returns the cached exports object; for an uncached key the fresh record is
cached *before* the existence check and body execution (it is still present
afterwards, success or failure); a `require` of a key absent from the
modules table fails with the plain `Module not found` error — but only the
*first* such call: because the fresh record was cached before the check, a
later `require` of the same absent key returns that cached empty exports
object without error. -/
theorem C3_require_cache_semantics :
    ∀ (mods : RtModules) (fuel : Nat) (key : Str) (st : RtState),
      (∀ e, List.lookup key st.cache = some e →
        requireRun mods (fuel + 1) key st = (st, .ok e)) ∧
      (List.lookup key st.cache = none → List.lookup key mods = none →
        requireRun mods (fuel + 1) key st =
          (⟨st.cache ++ [(key, st.nextExports)], st.nextExports + 1⟩,
           .error (strOf "Module not found: " ++ key)) ∧
        ∀ fuel', requireRun mods (fuel' + 1) key
            ⟨st.cache ++ [(key, st.nextExports)], st.nextExports + 1⟩ =
          (⟨st.cache ++ [(key, st.nextExports)], st.nextExports + 1⟩,
           .ok st.nextExports)) ∧
      (List.lookup key st.cache = none →
        ∀ body, List.lookup key mods = some body →
        List.lookup key (requireRun mods (fuel + 1) key st).1.cache =
          some st.nextExports) := by
  intro mods fuel key st
  refine ⟨?_, ?_, ?_⟩
  · intro e hc
    unfold requireRun
    rw [hc]
  · intro hc hm
    constructor
    · unfold requireRun
      rw [hc, hm]
    · intro fuel'
      have hlk : List.lookup key (st.cache ++ [(key, st.nextExports)]) =
          some st.nextExports := by
        rw [lookup_append_none key st.cache _ hc]
        exact lookup_cons_self key st.nextExports []
      unfold requireRun
      rw [hlk]
  · intro hc body hm
    have hlk1 : List.lookup key (st.cache ++ [(key, st.nextExports)]) =
        some st.nextExports := by
      rw [lookup_append_none key st.cache _ hc]
      exact lookup_cons_self key st.nextExports []
    unfold requireRun
    rw [hc, hm]
    rcases bodyFold_cache_mono (fun k s => requireRun mods fuel k s)
      (fun k s => requireRun_cache_mono mods fuel k s) body
      (⟨st.cache ++ [(key, st.nextExports)], st.nextExports + 1⟩, .ok 0) with ⟨t, ht⟩
    rcases hp : (body.foldl (bodyStep fun k s => requireRun mods fuel k s)
        (⟨st.cache ++ [(key, st.nextExports)], st.nextExports + 1⟩, .ok 0)) with ⟨s2, r2⟩
    rw [hp] at ht
    simp only at ht
    simp only [hp]
    cases r2 with
    | error e2 =>
      simp only
      rw [ht]
      exact lookup_append_some key (st.cache ++ [(key, st.nextExports)]) t
        st.nextExports hlk1
    | ok v2 =>
      simp only
      rw [ht]
      exact lookup_append_some key (st.cache ++ [(key, st.nextExports)]) t
        st.nextExports hlk1

/-- Claim C3 witness: a first require of an absent key fails and caches, a
second one then succeeds; and in a self-cycle the key is cached with the
fresh exports identity before (and after) the body runs. -/
theorem C3_witness :
    (requireRun [] 1 (strOf "./x.js") ⟨[], 0⟩ =
      (⟨[(strOf "./x.js", 0)], 1⟩, .error (strOf "Module not found: ./x.js")) ∧
     requireRun [] 1 (strOf "./x.js") ⟨[(strOf "./x.js", 0)], 1⟩ =
      (⟨[(strOf "./x.js", 0)], 1⟩, .ok 0)) ∧
    List.lookup (strOf "./self.js")
      (requireRun [(strOf "./self.js", [strOf "./self.js"])] 2
        (strOf "./self.js") ⟨[], 0⟩).1.cache = some 0 := by
  constructor
  · have h := (C3_require_cache_semantics [] 0 (strOf "./x.js") ⟨[], 0⟩).2.1 rfl rfl
    exact ⟨h.1, h.2 0⟩
  · exact (C3_require_cache_semantics [(strOf "./self.js", [strOf "./self.js"])] 1
      (strOf "./self.js") ⟨[], 0⟩).2.2 rfl [strOf "./self.js"] rfl

/-- Claim C5 (amended): when a plugin hook rejects during `applyPlugins`,
the error propagates to the caller *unchanged* — it is exactly the value
some configured plugin's hook produced, not a `PluginError` wrapper carrying
plugin name and phase (the source defines no such wrapper). -/
theorem C5_plugin_error_propagates_unwrapped :
    ∀ (plugins : List Plugin) (phase : PluginPhase) (content : Str)
      (minfo : Option JsModule) (e : BErr),
      applyPlugins plugins phase content minfo = .error e →
      ∃ p ∈ plugins, ∃ h c', p.hooks phase = some h ∧ h c' minfo = .error e := by
  intro plugins
  induction plugins with
  | nil => intro phase content minfo e he; simp [applyPlugins] at he
  | cons p ps ih =>
    intro phase content minfo e he
    have hkey : applyPlugins (p :: ps) phase content minfo =
        (match p.hooks phase with
         | none => applyPlugins ps phase content minfo
         | some h =>
           match h content minfo with
           | .error e => .error e
           | .ok c => applyPlugins ps phase c minfo) := rfl
    rw [hkey] at he
    cases hh : p.hooks phase with
    | none =>
      simp only [hh] at he
      rcases ih phase content minfo e he with ⟨q, hq, h, c', hhook, herr⟩
      exact ⟨q, List.mem_cons_of_mem p hq, h, c', hhook, herr⟩
    | some h =>
      simp only [hh] at he
      cases hr : h content minfo with
      | error e' =>
        simp only [hr] at he
        cases he
        exact ⟨p, List.mem_cons_self p ps, h, content, hh, hr⟩
      | ok c =>
        simp only [hr] at he
        rcases ih phase c minfo e he with ⟨q, hq, h2, c', hhook, herr⟩
        exact ⟨q, List.mem_cons_of_mem p hq, h2, c', hhook, herr⟩

/-- Claim C5 witness: the rejecting example plugin's raw thrown value is
exactly what `applyPlugins` surfaces. -/
theorem C5_witness :
    ∃ p ∈ [exBoomPlugin], ∃ h c', p.hooks PluginPhase.bundlePhase = some h ∧
      h c' none = .error (.thrown (strOf "boom")) :=
  C5_plugin_error_propagates_unwrapped [exBoomPlugin] .bundlePhase
    (strOf "code") none (.thrown (strOf "boom")) rfl

/-! ## Edit application (claim C7) -/

lemma editsOK_cons {s : Str} {pos : Nat} {e : Edit} {rest : List Edit}
    (h : editsOK s pos (e :: rest) = true) :
    pos ≤ e.start ∧ e.start < e.stop ∧ e.stop ≤ s.length ∧
      editsOK s e.stop rest = true := by
  simp only [editsOK, Bool.and_eq_true, decide_eq_true_eq] at h
  exact ⟨h.1.1.1, h.1.1.2, h.1.2, h.2⟩

lemma editsOK_mono {s : Str} {l : List Edit} :
    ∀ {p p' : Nat}, p' ≤ p → editsOK s p l = true → editsOK s p' l = true := by
  cases l with
  | nil => intro p p' _ _; rfl
  | cons e rest =>
    intro p p' hle h
    rcases editsOK_cons h with ⟨h1, h2, h3, h4⟩
    simp only [editsOK, Bool.and_eq_true, decide_eq_true_eq]
    exact ⟨⟨⟨le_trans hle h1, h2⟩, h3⟩, h4⟩

lemma editsOK_start_ge {s : Str} :
    ∀ {l : List Edit} {pos : Nat}, editsOK s pos l = true →
      ∀ f ∈ l, pos ≤ f.start := by
  intro l
  induction l with
  | nil => intro pos _ f hf; cases hf
  | cons e rest ih =>
    intro pos h f hf
    rcases editsOK_cons h with ⟨h1, h2, _, h4⟩
    rcases List.mem_cons.mp hf with rfl | hf'
    · exact h1
    · exact le_trans (le_trans h1 (Nat.le_of_lt h2)) (ih h4 f hf')

lemma editsOK_lt_starts {s : Str} {pos : Nat} {e : Edit} {rest : List Edit}
    (h : editsOK s pos (e :: rest) = true) : ∀ f ∈ rest, e.start < f.start := by
  rcases editsOK_cons h with ⟨_, h2, _, h4⟩
  intro f hf
  exact Nat.lt_of_lt_of_le h2 (editsOK_start_ge h4 f hf)

lemma insDesc_all_lt (e : Edit) :
    ∀ l : List Edit, (∀ f ∈ l, e.start < f.start) → insDesc e l = l ++ [e] := by
  intro l
  induction l with
  | nil => intro _; rfl
  | cons f fs ih =>
    intro h
    have hf : e.start < f.start := h f (List.mem_cons_self f fs)
    simp only [insDesc, if_neg (by omega : ¬ e.start ≥ f.start), List.cons_append]
    rw [ih (fun g hg => h g (List.mem_cons_of_mem f hg))]

lemma sortDesc_of_ascending {s : Str} :
    ∀ (l : List Edit) (pos : Nat), editsOK s pos l = true →
      sortDescEdits l = l.reverse := by
  intro l
  induction l with
  | nil => intro pos _; rfl
  | cons e rest ih =>
    intro pos h
    rcases editsOK_cons h with ⟨_, _, _, h4⟩
    have hrev : sortDescEdits rest = rest.reverse := ih e.stop h4
    have : sortDescEdits (e :: rest) = insDesc e (sortDescEdits rest) := rfl
    rw [this, hrev, insDesc_all_lt e rest.reverse
      (fun f hf => editsOK_lt_starts h f (List.mem_reverse.mp hf)),
      List.reverse_cons]

lemma rebuild_take (s : Str) (p q : Nat) :
    ∀ rest : List Edit, editsOK s q rest = true → p ≤ q → p ≤ s.length →
      (rebuildFrom s 0 rest).take p = s.take p := by
  intro rest h hpq hps
  cases rest with
  | nil => simp [rebuildFrom]
  | cons f r =>
    rcases editsOK_cons h with ⟨h1, _, _, _⟩
    have hp_le : p ≤ (s.take f.start).length := by
      simp only [List.length_take]
      exact le_min (le_trans hpq h1) hps
    simp only [rebuildFrom, List.drop_zero, List.append_assoc]
    rw [List.take_append_of_le_length hp_le, List.take_take p f.start s,
      Nat.min_eq_left (le_trans hpq h1)]

lemma rebuild_drop (s : Str) (p : Nat) :
    ∀ rest : List Edit, editsOK s p rest = true → p ≤ s.length →
      (rebuildFrom s 0 rest).drop p = rebuildFrom s p rest := by
  intro rest h hps
  cases rest with
  | nil => simp [rebuildFrom]
  | cons f r =>
    rcases editsOK_cons h with ⟨h1, _, _, _⟩
    have hp_le : p ≤ (s.take f.start).length := by
      simp only [List.length_take]
      exact le_min h1 hps
    simp only [rebuildFrom, List.drop_zero, List.append_assoc]
    rw [List.drop_append_of_le_length hp_le]

lemma applyRev (s : Str) :
    ∀ ts : List Edit, editsOK s 0 ts = true →
      applyEditsSorted s ts.reverse = rebuildFrom s 0 ts := by
  intro ts
  induction ts with
  | nil => intro _; simp [applyEditsSorted, rebuildFrom]
  | cons e rest ih =>
    intro h
    rcases editsOK_cons h with ⟨_, h2, h3, h4⟩
    have hIH : applyEditsSorted s rest.reverse = rebuildFrom s 0 rest :=
      ih (editsOK_mono (Nat.zero_le e.stop) h4)
    have hfold : applyEditsSorted s ((e :: rest).reverse) =
        (applyEditsSorted s rest.reverse).take e.start ++ e.repl ++
          (applyEditsSorted s rest.reverse).drop e.stop := by
      simp only [List.reverse_cons, applyEditsSorted, List.foldl_append, List.foldl_cons,
        List.foldl_nil]
    rw [hfold, hIH,
      rebuild_take s e.start e.stop rest h4 (Nat.le_of_lt h2)
        (le_trans (Nat.le_of_lt h2) h3),
      rebuild_drop s e.stop rest h4 h3]
    simp [rebuildFrom]

/-- Claim C7: `transformModuleContent` applies a module's edits in
descending start order (for ascending pairwise-disjoint spans the sorted
list is exactly the reversed input), and the result interleaves every
untouched gap of the original text, byte for byte, with the replacements:
it equals `rebuildFrom`, which copies each region outside the edit spans
verbatim. -/
theorem C7_descending_edits_preserve_gaps :
    ∀ (s : Str) (ts : List Edit), editsOK s 0 ts = true →
      sortDescEdits ts = ts.reverse ∧
      applyTransformations s ts = rebuildFrom s 0 ts := by
  intro s ts h
  refine ⟨sortDesc_of_ascending ts 0 h, ?_⟩
  unfold applyTransformations
  rw [sortDesc_of_ascending ts 0 h]
  exact applyRev s ts h

/-- Claim C7 witness: two disjoint edits over `abcdefgh` splice to
`aXYdeZgh` with the gaps intact. -/
theorem C7_witness :
    editsOK (strOf "abcdefgh") 0
      [⟨1, 3, strOf "XY"⟩, ⟨5, 6, strOf "Z"⟩] = true ∧
    applyTransformations (strOf "abcdefgh")
      [⟨1, 3, strOf "XY"⟩, ⟨5, 6, strOf "Z"⟩] =
      rebuildFrom (strOf "abcdefgh") 0 [⟨1, 3, strOf "XY"⟩, ⟨5, 6, strOf "Z"⟩] :=
  ⟨rfl, (C7_descending_edits_preserve_gaps (strOf "abcdefgh")
    [⟨1, 3, strOf "XY"⟩, ⟨5, 6, strOf "Z"⟩] rfl).2⟩

/-! ## External-import rewriting (claim C6) -/

lemma isPrefixOf_take {pat z : Str} {n : Nat}
    (h : pat.isPrefixOf z = true) (hn : pat.length ≤ n) :
    pat.isPrefixOf (z.take n) = true := by
  rw [List.isPrefixOf_iff_prefix] at h ⊢
  rw [List.prefix_iff_eq_take] at h ⊢
  rw [List.take_take pat.length n z, Nat.min_eq_left hn]
  exact h

lemma replaceFirst_skip (pat repl : Str) (hpat : pat ≠ []) :
    ∀ (xs ys : Str),
      isSubstr pat (xs ++ ys.take (pat.length - 1)) = false →
      replaceFirst pat repl (xs ++ ys) = xs ++ replaceFirst pat repl ys := by
  intro xs
  induction xs with
  | nil => intro ys _; rfl
  | cons c xs ih =>
    intro ys h
    simp only [isSubstr, List.cons_append, List.append_eq, Bool.or_eq_false_iff] at h
    have hnp : pat.isPrefixOf (c :: (xs ++ ys)) = false := by
      cases hval : pat.isPrefixOf (c :: (xs ++ ys)) with
      | false => rfl
      | true =>
        exfalso
        have hlen : pat.length ≤ xs.length + 1 + (pat.length - 1) := by
          have : 1 ≤ pat.length := by
            cases pat with
            | nil => exact absurd rfl hpat
            | cons _ _ => simp
          omega
        have hcxs : (c :: xs).length + (pat.length - 1) =
            xs.length + 1 + (pat.length - 1) := by simp
        have htk : (c :: (xs ++ ys)).take (xs.length + 1 + (pat.length - 1)) =
            c :: (xs ++ ys.take (pat.length - 1)) := by
          calc (c :: (xs ++ ys)).take (xs.length + 1 + (pat.length - 1))
              = ((c :: xs) ++ ys).take ((c :: xs).length + (pat.length - 1)) := by
                rw [hcxs]
                rfl
            _ = (c :: xs) ++ ys.take (pat.length - 1) :=
                List.take_append (pat.length - 1)
            _ = c :: (xs ++ ys.take (pat.length - 1)) := by simp
        have hpref := isPrefixOf_take hval hlen
        rw [htk] at hpref
        exact absurd (h.1.symm.trans hpref) (by decide)
    simp only [List.cons_append, replaceFirst, List.append_eq, hnp, Bool.false_eq_true,
      if_false]
    rw [ih ys h.2]

lemma rf_import (t : Str) :
    replaceFirst (strOf "import") (strOf "const") (strOf "import " ++ t) =
      strOf "const " ++ t := rfl

lemma rf_from (t : Str) :
    replaceFirst (strOf "from") (strOf "=") (strOf " from " ++ t) =
      strOf " = " ++ t := rfl

lemma rqAux_skip (ys : Str) :
    ∀ xs : Str, (∀ c ∈ xs, isQuote c = false) →
      rqAux none (xs ++ ys) = xs ++ rqAux none ys := by
  intro xs
  induction xs with
  | nil => intro _; rfl
  | cons c xs ih =>
    intro h
    have hc : isQuote c = false := h c (List.mem_cons_self c xs)
    simp only [List.cons_append, rqAux, List.append_eq, hc, Bool.false_eq_true, if_false]
    rw [ih (fun d hd => h d (List.mem_cons_of_mem c hd))]

lemma rqAux_body (q : Char) (ys : Str) :
    ∀ (spec : Str), (∀ c ∈ spec, isQuote c = false) → ∀ acc : Str,
      rqAux (some (q, acc)) (spec ++ ys) =
        rqAux (some (q, spec.reverse ++ acc)) ys := by
  intro spec
  induction spec with
  | nil => intro _ acc; simp
  | cons c spec ih =>
    intro h acc
    have hc : isQuote c = false := h c (List.mem_cons_self c spec)
    simp only [List.cons_append, rqAux, List.append_eq, hc, Bool.false_eq_true, if_false]
    rw [ih (fun d hd => h d (List.mem_cons_of_mem c hd)) (c :: acc)]
    simp

lemma replaceQuoted_spec (b spec : Str) (q : Char)
    (hb : ∀ c ∈ b, isQuote c = false) (hq : isQuote q = true)
    (hs : ∀ c ∈ spec, isQuote c = false) (hne : spec ≠ []) :
    replaceQuoted (b ++ (q :: (spec ++ [q]))) =
      b ++ (strOf "require(\x22" ++ (spec ++ strOf "\x22)")) := by
  unfold replaceQuoted
  rw [rqAux_skip (q :: (spec ++ [q])) b hb]
  have h1 : rqAux none (q :: (spec ++ [q])) = rqAux (some (q, [])) (spec ++ [q]) := by
    simp only [rqAux, hq, if_true]
  rw [h1, rqAux_body q [q] spec hs []]
  have hrevne : spec.reverse.isEmpty = false := by
    cases hrv : spec.reverse with
    | nil => exact absurd (by simpa using congrArg List.reverse hrv) hne
    | cons a l => rfl
  simp only [List.append_nil, rqAux, hq, if_true, hrevne, Bool.false_eq_true, if_false,
    List.reverse_reverse]
  simp [List.append_assoc]

lemma ensureSemi_append_last (xs : Str) (c : Char) (h : (';' == c) = false) :
    ensureSemi (xs ++ [c]) = xs ++ [c] ++ strOf ";" := by
  unfold ensureSemi
  have hsf : (strOf ";").isSuffixOf (xs ++ [c]) = false := by
    simp only [List.isSuffixOf, List.reverse_append]
    simp only [strOf, String.toList]
    show List.isPrefixOf [';'] (c :: xs.reverse) = false
    simp [List.isPrefixOf, h]
  rw [hsf]
  simp

/-- Claim C6 (amended): the external-import rewrite preserves the original
local binding shape *provided* the text before the `from` keyword contains
no further occurrence of the substring `from` and the binding and specifier
contain no quote characters; under those side conditions the declaration
`import <binding> from <quoted spec>` becomes exactly
`const <binding> = require("<spec>");`.  Without them the first-occurrence
string replaces destroy the binding (see the counterexample, where a local
named `fromJson` is not preserved).  Names merely containing `import` are
harmless because the declaration always starts with the `import` keyword. -/
theorem C6_external_import_rewrite (b spec : Str) (q : Char)
    (hq : isQuote q = true)
    (hb : ∀ c ∈ b, isQuote c = false)
    (hspec : ∀ c ∈ spec, isQuote c = false)
    (hne : spec ≠ [])
    (hfrom : isSubstr (strOf "from") ((strOf "const " ++ b) ++ strOf " fr") = false) :
    externalImportReplacement
        (strOf "import " ++ (b ++ (strOf " from " ++ (q :: (spec ++ [q]))))) =
      strOf "const " ++ (b ++ (strOf " = " ++
        (strOf "require(\x22" ++ (spec ++ strOf "\x22);")))) := by
  unfold externalImportReplacement
  rw [rf_import (b ++ (strOf " from " ++ (q :: (spec ++ [q]))))]
  have hassoc1 : strOf "const " ++ (b ++ (strOf " from " ++ (q :: (spec ++ [q])))) =
      (strOf "const " ++ b) ++ (strOf " from " ++ (q :: (spec ++ [q]))) :=
    (List.append_assoc _ _ _).symm
  rw [hassoc1, replaceFirst_skip (strOf "from") (strOf "=") (by decide)
    (strOf "const " ++ b) (strOf " from " ++ (q :: (spec ++ [q]))) ?side]
  case side =>
    have htake : (strOf " from " ++ (q :: (spec ++ [q]))).take
        ((strOf "from").length - 1) = strOf " fr" := rfl
    rw [htake]
    exact hfrom
  rw [rf_from (q :: (spec ++ [q]))]
  have hassoc2 : (strOf "const " ++ b) ++ (strOf " = " ++ (q :: (spec ++ [q]))) =
      ((strOf "const " ++ b) ++ strOf " = ") ++ (q :: (spec ++ [q])) :=
    (List.append_assoc _ _ _).symm
  rw [hassoc2, replaceQuoted_spec ((strOf "const " ++ b) ++ strOf " = ") spec q
    ?noquote hq hspec hne]
  case noquote =>
    intro c hc
    simp only [List.mem_append] at hc
    rcases hc with hc | hc
    rcases hc with hc | hc
    · revert c
      rw [show (∀ c ∈ strOf "const ", isQuote c = false) = (∀ c ∈ strOf "const ",
        isQuote c = false) from rfl]
      decide
    · exact hb c hc
    · revert c
      decide
  have hsplit : ((strOf "const " ++ b) ++ strOf " = ") ++
      (strOf "require(\x22" ++ (spec ++ strOf "\x22)")) =
      (((strOf "const " ++ b) ++ strOf " = ") ++
        (strOf "require(\x22" ++ (spec ++ strOf "\x22")))  ++ [')'] := by
    simp only [List.append_assoc, List.cons_append, List.nil_append]
    rfl
  rw [hsplit, ensureSemi_append_last _ ')' (by decide)]
  simp only [List.append_assoc, List.cons_append, List.nil_append]
  rfl

/-- Claim C6 witness: a rename-free external declaration
`import \x7b x \x7d from "lib"` rewrites to
`const \x7b x \x7d = require("lib");`, preserving the binding text. -/
theorem C6_witness :
    externalImportReplacement (strOf "import " ++ (strOf "\x7b x \x7d" ++
        (strOf " from " ++ ('\x22' :: (strOf "lib" ++ ['\x22']))))) =
      strOf "const " ++ (strOf "\x7b x \x7d" ++ (strOf " = " ++
        (strOf "require(\x22" ++ (strOf "lib" ++ strOf "\x22);")))) :=
  C6_external_import_rewrite (strOf "\x7b x \x7d") (strOf "lib") '\x22'
    rfl (by decide) (by decide) (by decide) rfl

/-! ## Canonical-key shape (claim C8) -/

lemma splitSlash_noSlash : ∀ s : Str, (∀ c ∈ s, c ≠ '/') → splitSlash s = [s] := by
  intro s
  induction s with
  | nil => intro _; rfl
  | cons c s ih =>
    intro h
    have hc : c ≠ '/' := h c (List.mem_cons_self c s)
    simp only [splitSlash, if_neg hc]
    rw [ih (fun d hd => h d (List.mem_cons_of_mem c hd))]

lemma splitSlash_decomp (suf : Str) (hsuf : ∀ c ∈ suf, c ≠ '/') :
    ∀ xs : Str, ∃ ss L, splitSlash (xs ++ suf) = ss ++ [L ++ suf] := by
  intro xs
  induction xs with
  | nil =>
    refine ⟨[], [], ?_⟩
    simp [splitSlash_noSlash suf hsuf]
  | cons c xs ih =>
    rcases ih with ⟨ss, L, hss⟩
    by_cases hc : c = '/'
    · subst hc
      refine ⟨[] :: ss, L, ?_⟩
      simp [splitSlash, hss]
    · cases ss with
      | nil =>
        refine ⟨[], c :: L, ?_⟩
        simp [splitSlash, hc, hss]
      | cons s0 ss' =>
        refine ⟨(c :: s0) :: ss', L, ?_⟩
        simp [splitSlash, hc, hss]

lemma foldl_normStep_push (seg : Str) (hne : seg ≠ []) (hdot : seg ≠ strOf ".")
    (hdd : seg ≠ strOf "..") :
    ∀ (ss : List Str) (acc : List Str),
      (ss ++ [seg]).foldl normStep acc = ss.foldl normStep acc ++ [seg] := by
  intro ss acc
  rw [List.foldl_append]
  simp only [List.foldl_cons, List.foldl_nil, normStep]
  rw [if_neg (by tauto), if_neg hdd]

lemma joinSlash_cons_ne (a : Str) (tail : List Str) (h : tail ≠ []) :
    joinSlash (a :: tail) = a ++ '/' :: joinSlash tail := by
  cases tail with
  | nil => exact absurd rfl h
  | cons b t => rfl

lemma joinSlash_suffix (L : Str) :
    ∀ st : List Str, L <:+ joinSlash (st ++ [L]) := by
  intro st
  induction st with
  | nil => exact List.suffix_refl L
  | cons a st' ih =>
    have hne : st' ++ [L] ≠ [] := by simp
    rw [List.cons_append, joinSlash_cons_ne a (st' ++ [L]) hne]
    calc L <:+ joinSlash (st' ++ [L]) := ih
      _ <:+ '/' :: joinSlash (st' ++ [L]) := List.suffix_cons '/' _
      _ <:+ a ++ '/' :: joinSlash (st' ++ [L]) := List.suffix_append a _

lemma normalizeAbs_js (w : Str) :
    (strOf ".js").isSuffixOf (normalizeAbs (w ++ strOf ".js")) = true := by
  rcases splitSlash_decomp (strOf ".js") (by decide) w with ⟨ss, L, hss⟩
  have hseg : L ++ strOf ".js" ≠ [] := by simp [strOf]
  have hdot : L ++ strOf ".js" ≠ strOf "." := by
    intro h
    have := congrArg List.length h
    simp [strOf] at this
  have hdd : L ++ strOf ".js" ≠ strOf ".." := by
    intro h
    have := congrArg List.length h
    simp [strOf] at this
  have hsuffix : (strOf ".js") <:+ normalizeAbs (w ++ strOf ".js") := by
    unfold normalizeAbs normSegs
    rw [hss, foldl_normStep_push (L ++ strOf ".js") hseg hdot hdd ss []]
    have h1 : (strOf ".js") <:+ L ++ strOf ".js" := List.suffix_append L _
    have h2 := joinSlash_suffix (L ++ strOf ".js") (ss.foldl normStep [])
    exact (h1.trans h2).trans (List.suffix_cons '/' _)
  rw [List.isSuffixOf_iff_suffix]
  exact hsuffix

lemma isAbsolute_normalizeAbs (s : Str) : isAbsolute (normalizeAbs s) = true := rfl

lemma pathResolve_absolute (cwd a b : Str) : isAbsolute (pathResolve cwd a b) = true := by
  unfold pathResolve
  split
  · rfl
  · split
    · rfl
    · rfl

lemma resolveDependencyPath_shape (cwd imp dep : Str) :
    isAbsolute (resolveDependencyPath cwd imp dep) = true ∧
    (strOf ".js").isSuffixOf (resolveDependencyPath cwd imp dep) = true := by
  constructor
  · exact pathResolve_absolute cwd (pathDirname imp) _
  · unfold resolveDependencyPath
    have hjs : ∃ u, (if (strOf ".js").isSuffixOf dep then dep
        else dep ++ strOf ".js") = u ++ strOf ".js" := by
      split
      · rename_i hsf
        rw [List.isSuffixOf_iff_suffix] at hsf
        rcases hsf with ⟨u, hu⟩
        exact ⟨u, hu.symm⟩
      · exact ⟨dep, rfl⟩
    rcases hjs with ⟨u, hu⟩
    rw [hu]
    unfold pathResolve
    split
    · exact normalizeAbs_js u
    · split
      · have : pathDirname imp ++ '/' :: (u ++ strOf ".js") =
            (pathDirname imp ++ '/' :: u) ++ strOf ".js" := by
          simp
        rw [this]
        exact normalizeAbs_js _
      · have : cwd ++ '/' :: pathDirname imp ++ '/' :: (u ++ strOf ".js") =
            (cwd ++ '/' :: pathDirname imp ++ '/' :: u) ++ strOf ".js" := by
          simp
        rw [this]
        exact normalizeAbs_js _

lemma depFold_keys (cwd fp : Str) (recur : Str → GSt → GSt × Option BErr)
    (hrec : ∀ k s, ∀ p ∈ (recur k s).1.modules,
      p ∈ s.modules ∨ p.1 = k ∨
        (isAbsolute p.1 = true ∧ (strOf ".js").isSuffixOf p.1 = true)) :
    ∀ (deps : List Str) (st1 : GSt),
      ∀ p ∈ (deps.foldl (depStep cwd fp recur) st1).modules,
        p ∈ st1.modules ∨
          (isAbsolute p.1 = true ∧ (strOf ".js").isSuffixOf p.1 = true) := by
  intro deps
  induction deps with
  | nil => intro st1 p hp; exact Or.inl hp
  | cons d ds ih =>
    intro st1 p hp
    rw [List.foldl_cons] at hp
    rcases ih (depStep cwd fp recur st1 d) p hp with h | h
    · simp only [depStep] at h
      split at h
      · exact Or.inl h
      · split at h
        · exact Or.inl h
        · split at h
          · rename_i st2 heq
            rcases hrec (resolveDependencyPath cwd fp d) st1 p
              (by rw [heq]; exact h) with h' | h' | h'
            · exact Or.inl h'
            · refine Or.inr ?_
              rw [h']
              exact resolveDependencyPath_shape cwd fp d
            · exact Or.inr h'
          · rename_i st2 e heq
            simp only at h
            rcases hrec (resolveDependencyPath cwd fp d) st1 p
              (by rw [heq]; exact h) with h' | h' | h'
            · exact Or.inl h'
            · refine Or.inr ?_
              rw [h']
              exact resolveDependencyPath_shape cwd fp d
            · exact Or.inr h'
    · exact Or.inr h

lemma buildGraph_keys (fs : FS) (cwd : Str) :
    ∀ (fuel : Nat) (key : Str) (st : GSt),
      ∀ p ∈ (buildDependencyGraph fs cwd fuel key st).1.modules,
        p ∈ st.modules ∨ p.1 = key ∨
          (isAbsolute p.1 = true ∧ (strOf ".js").isSuffixOf p.1 = true) := by
  intro fuel
  induction fuel with
  | zero =>
    intro key st p hp
    simp only [buildDependencyGraph] at hp
    exact Or.inl hp
  | succ fuel ih =>
    intro key st p hp
    unfold buildDependencyGraph at hp
    split at hp
    · exact Or.inl hp
    · split at hp
      · exact Or.inl hp
      · rename_i m hread
        simp only at hp
        rcases depFold_keys cwd key _ (fun k s => ih k s) m.dependencies
          ⟨st.modules ++ [(key, m)], st.nextId + 1, st.warnings⟩ p hp with h | h
        · rcases List.mem_append.mp h with h' | h'
          · exact Or.inl h'
          · simp only [List.mem_singleton] at h'
            subst h'
            exact Or.inr (Or.inl rfl)
        · exact Or.inr (Or.inr h)

/-- Claim C8 (amended): every key of the completed module graph is an
absolute path, and every key other than the entry key carries the `.js`
suffix (it arises from `resolveDependencyPath`, which appends `.js` when
missing).  The entry key is `path.resolve(cwd, config.entry)`, which is
absolute but keeps whatever suffix the configuration supplied — so a
configuration whose entry lacks `.js` yields a graph key without the suffix
(see the counterexample). -/
theorem C8_graph_keys_shape :
    ∀ (fs : FS) (cwd : Str) (cfg : BundlerConfig) (fuel : Nat),
      ∀ p ∈ (buildDependencyGraph fs cwd fuel (normalizeConfig cwd cfg).entry
          initGSt).1.modules,
        isAbsolute p.1 = true ∧
          (p.1 = (normalizeConfig cwd cfg).entry ∨
           (strOf ".js").isSuffixOf p.1 = true) := by
  intro fs cwd cfg fuel p hp
  rcases buildGraph_keys fs cwd fuel _ initGSt p hp with h | h | h
  · simp [initGSt] at h
  · constructor
    · rw [h]
      exact pathResolve_absolute cwd cwd _
    · exact Or.inl h
  · exact ⟨h.1, Or.inr h.2⟩

/-- Claim C8 witness: in the example graph the dependency key `/w/a.js` is
absolute and `.js`-suffixed. -/
theorem C8_witness :
    isAbsolute (strOf "/w/a.js") = true ∧
    (strOf "/w/a.js" = (normalizeConfig (strOf "/w") exGoodCfg).entry ∨
     (strOf ".js").isSuffixOf (strOf "/w/a.js") = true) :=
  C8_graph_keys_shape exGoodFs (strOf "/w") exGoodCfg (fuelOf exGoodFs)
    (strOf "/w/a.js", exGoodModA) (by decide)

/-! ## Analyzer well-formedness (claim C4, part 1) -/

lemma isLocal_ne_nil {p : Str} (h : isLocalModule p = true) : p.isEmpty = false := by
  cases p with
  | nil => exact absurd h (by decide)
  | cons c t => rfl

lemma varDeclFold_fields :
    ∀ (ds : List (Option Str)) (st : ModuleInfo),
      (ds.foldl varDeclStep st).imports = st.imports ∧
      (ds.foldl varDeclStep st).dependencies = st.dependencies := by
  intro ds
  induction ds with
  | nil => intro st; exact ⟨rfl, rfl⟩
  | cons d ds ih =>
    intro st
    rw [List.foldl_cons]
    rcases ih (varDeclStep st d) with ⟨h1, h2⟩
    cases d with
    | none => exact ⟨h1, h2⟩
    | some n => exact ⟨h1, h2⟩

lemma reexFold_fields (v : Str) :
    ∀ (specs : List ExportSpecNode) (acc : Str × ModuleInfo),
      ((specs.foldl (reexSpecStep v) acc).2.imports = acc.2.imports ∧
       (specs.foldl (reexSpecStep v) acc).2.dependencies = acc.2.dependencies) := by
  intro specs
  induction specs with
  | nil => intro acc; exact ⟨rfl, rfl⟩
  | cons sp specs ih =>
    intro acc
    rw [List.foldl_cons]
    exact ih (reexSpecStep v acc sp)

lemma localFold_fields :
    ∀ (specs : List ExportSpecNode) (acc : Str × ModuleInfo),
      ((specs.foldl localSpecStep acc).2.imports = acc.2.imports ∧
       (specs.foldl localSpecStep acc).2.dependencies = acc.2.dependencies) := by
  intro specs
  induction specs with
  | nil => intro acc; exact ⟨rfl, rfl⟩
  | cons sp specs ih =>
    intro acc
    rw [List.foldl_cons]
    exact ih (localSpecStep acc sp)

lemma importsOK_deps_grow {imports : List ImportInfo} {deps t : List Str}
    (h : ImportsOK imports deps) : ImportsOK imports (deps ++ t) := by
  intro imp hi
  exact ⟨List.mem_append_left t (h imp hi).1, (h imp hi).2⟩

lemma processImport_wf (cwd content fp : Str) (a b : Nat) (src : Option Str)
    (specs : List ImportSpecifier) (st : ModuleInfo)
    (h : ImportsOK st.imports st.dependencies) :
    ImportsOK (processImport cwd content fp a b src specs st).imports
      (processImport cwd content fp a b src specs st).dependencies := by
  cases src with
  | none => exact h
  | some sv =>
    simp only [processImport]
    split
    · exact importsOK_deps_grow h
    · rename_i hloc
      intro imp hi
      simp only [List.mem_append, List.mem_singleton] at hi
      rcases hi with hi | hi
      · exact ⟨List.mem_append_left _ (h imp hi).1, (h imp hi).2⟩
      · subst hi
        refine ⟨List.mem_append_right _ (List.mem_singleton_self sv), ?_⟩
        simp only [Bool.not_eq_true', Bool.not_eq_false] at hloc
        exact hloc

lemma processNamedExport_wf (cwd fp : Str) (a b : Nat) (decl : Option ExportDecl)
    (specs : List ExportSpecNode) (src : Option Str) (st : ModuleInfo)
    (h : ImportsOK st.imports st.dependencies) :
    ImportsOK (processNamedExport cwd fp a b decl specs src st).imports
      (processNamedExport cwd fp a b decl specs src st).dependencies := by
  cases decl with
  | some d =>
    show ImportsOK (processExportDeclaration a d st).imports
      (processExportDeclaration a d st).dependencies
    cases d with
    | varDecl ds =>
      simp only [processExportDeclaration]
      rcases varDeclFold_fields ds _ with ⟨h1, h2⟩
      rw [h1, h2]
      exact h
    | funDecl i =>
      cases i with
      | none => exact h
      | some n => exact h
    | classDecl i =>
      cases i with
      | none => exact h
      | some n => exact h
    | otherDecl => exact h
  | none =>
    simp only [processNamedExport]
    split
    · exact h
    · cases src with
      | some sv =>
        simp only [processReExports]
        rcases reexFold_fields (strOf "_require_" ++ sanitizeSpec sv) specs _ with ⟨h1, h2⟩
        rw [h1, h2]
        exact importsOK_deps_grow h
      | none =>
        simp only [processLocalExportSpecifiers]
        rcases localFold_fields specs _ with ⟨h1, h2⟩
        rw [h1, h2]
        exact h

lemma processDefaultExport_wf (content : Str) (a b : Nat) (decl : DefaultDecl)
    (st : ModuleInfo) (h : ImportsOK st.imports st.dependencies) :
    ImportsOK (processDefaultExport content a b decl st).imports
      (processDefaultExport content a b decl st).dependencies := by
  cases decl with
  | identDecl n => exact h
  | funMaybeNamed i ds de => cases i with
    | none => exact h
    | some n => exact h
  | classMaybeNamed i ds de => cases i with
    | none => exact h
    | some n => exact h
  | exprDecl ds de => exact h

lemma processNode_wf (cwd content fp : Str) (st : ModuleInfo) (node : JsNode)
    (h : ImportsOK st.imports st.dependencies) :
    ImportsOK (processNode cwd content fp st node).imports
      (processNode cwd content fp st node).dependencies := by
  cases node with
  | importNode a b src specs => exact processImport_wf cwd content fp a b src specs st h
  | exportNamedNode a b decl specs src =>
    exact processNamedExport_wf cwd fp a b decl specs src st h
  | exportDefaultNode a b decl => exact processDefaultExport_wf content a b decl st h

lemma analyzeModule_wf (cwd : Str) (ast : List JsNode) (content fp : Str) :
    ImportsOK (analyzeModule cwd ast content fp).imports
      (analyzeModule cwd ast content fp).dependencies := by
  unfold analyzeModule
  have hgen : ∀ (ns : List JsNode) (st : ModuleInfo),
      ImportsOK st.imports st.dependencies →
      ImportsOK (ns.foldl (processNode cwd content fp) st).imports
        (ns.foldl (processNode cwd content fp) st).dependencies := by
    intro ns
    induction ns with
    | nil => intro st h; exact h
    | cons n ns ih =>
      intro st h
      rw [List.foldl_cons]
      exact ih _ (processNode_wf cwd content fp st n h)
  exact hgen ast initInfo (by intro imp hi; cases hi)

lemma readModule_ok_fields {fs : FS} {cwd fp : Str} {i : Nat} {m : JsModule}
    (h : readModule fs cwd fp i = .ok m) :
    m.filePath = fp ∧ ImportsOK m.imports m.dependencies := by
  unfold readModule at h
  split at h
  · cases h
  · cases h
  · cases h
  · rename_i content ast heq
    cases h
    exact ⟨rfl, analyzeModule_wf cwd ast content fp⟩

/-! ## Graph closure (claim C4, part 2) -/

lemma lookup_isSome_append {k : Str} {l t : List (Str × JsModule)}
    (h : (List.lookup k l).isSome = true) :
    (List.lookup k (l ++ t)).isSome = true := by
  rcases Option.isSome_iff_exists.mp h with ⟨v, hv⟩
  rw [lookup_append_some k l t v hv]
  rfl

lemma OKimp_mono {cwd : Str} {st st' : GSt} {fp : Str} {imp : ImportInfo}
    (h1 : ∃ t, st'.modules = st.modules ++ t)
    (h2 : ∃ w, st'.warnings = st.warnings ++ w)
    (h : OKimp cwd st fp imp) : OKimp cwd st' fp imp := by
  rcases h1 with ⟨t, ht⟩
  rcases h2 with ⟨w, hw⟩
  rcases h with h | h
  · exact Or.inl (by rw [ht]; exact lookup_isSome_append h)
  · exact Or.inr (by rw [hw]; exact List.mem_append_left w h)

lemma depStep_eq (cwd fp : Str) (recur : Str → GSt → GSt × Option BErr)
    (st1 : GSt) (d : Str) :
    (depStep cwd fp recur st1 d = st1 ∧
      ((d.isEmpty || !isLocalModule d) = true ∨
       (lookupMod st1.modules (resolveDependencyPath cwd fp d)).isSome = true)) ∨
    ((d.isEmpty || !isLocalModule d) = false ∧
     (lookupMod st1.modules (resolveDependencyPath cwd fp d)).isSome = false ∧
     ((∃ st2, recur (resolveDependencyPath cwd fp d) st1 = (st2, none) ∧
         depStep cwd fp recur st1 d = st2) ∨
      (∃ st2 e, recur (resolveDependencyPath cwd fp d) st1 = (st2, some e) ∧
         depStep cwd fp recur st1 d =
           { st2 with warnings := st2.warnings ++ [warnMsg d fp] }))) := by
  by_cases h1 : (d.isEmpty || !isLocalModule d) = true
  · exact Or.inl ⟨by simp only [depStep, if_pos h1], Or.inl h1⟩
  · by_cases h2 : (lookupMod st1.modules (resolveDependencyPath cwd fp d)).isSome = true
    · refine Or.inl ⟨?_, Or.inr h2⟩
      simp only [depStep, if_neg h1, if_pos h2]
    · refine Or.inr ⟨Bool.not_eq_true _ ▸ Bool.of_not_eq_true h1, 
        Bool.of_not_eq_true h2, ?_⟩
      rcases heq : recur (resolveDependencyPath cwd fp d) st1 with ⟨st2, r⟩
      cases r with
      | none =>
        refine Or.inl ⟨st2, rfl, ?_⟩
        simp only [depStep, if_neg h1, if_neg h2, heq]
      | some e =>
        refine Or.inr ⟨st2, e, rfl, ?_⟩
        simp only [depStep, if_neg h1, if_neg h2, heq]

lemma depStep_mono (cwd fp : Str) (recur : Str → GSt → GSt × Option BErr)
    (hrec : ∀ k s, (∃ t, (recur k s).1.modules = s.modules ++ t) ∧
      (∃ w, (recur k s).1.warnings = s.warnings ++ w))
    (st1 : GSt) (d : Str) :
    (∃ t, (depStep cwd fp recur st1 d).modules = st1.modules ++ t) ∧
    (∃ w, (depStep cwd fp recur st1 d).warnings = st1.warnings ++ w) := by
  rcases depStep_eq cwd fp recur st1 d with ⟨heq, _⟩ | ⟨_, _, ⟨st2, hr, heq⟩ | ⟨st2, e, hr, heq⟩⟩
  · rw [heq]
    exact ⟨⟨[], by simp⟩, ⟨[], by simp⟩⟩
  · rcases hrec (resolveDependencyPath cwd fp d) st1 with ⟨⟨t, ht⟩, ⟨w, hw⟩⟩
    rw [hr] at ht hw
    simp only at ht hw
    rw [heq]
    exact ⟨⟨t, ht⟩, ⟨w, hw⟩⟩
  · rcases hrec (resolveDependencyPath cwd fp d) st1 with ⟨⟨t, ht⟩, ⟨w, hw⟩⟩
    rw [hr] at ht hw
    simp only at ht hw
    rw [heq]
    refine ⟨⟨t, ht⟩, ⟨w ++ [warnMsg d fp], ?_⟩⟩
    simp only [hw, List.append_assoc]

lemma depFold_mono (cwd fp : Str) (recur : Str → GSt → GSt × Option BErr)
    (hrec : ∀ k s, (∃ t, (recur k s).1.modules = s.modules ++ t) ∧
      (∃ w, (recur k s).1.warnings = s.warnings ++ w)) :
    ∀ (ds : List Str) (st1 : GSt),
      (∃ t, (ds.foldl (depStep cwd fp recur) st1).modules = st1.modules ++ t) ∧
      (∃ w, (ds.foldl (depStep cwd fp recur) st1).warnings = st1.warnings ++ w) := by
  intro ds
  induction ds with
  | nil => intro st1; exact ⟨⟨[], by simp⟩, ⟨[], by simp⟩⟩
  | cons d ds ih =>
    intro st1
    rw [List.foldl_cons]
    rcases ih (depStep cwd fp recur st1 d) with ⟨⟨t2, ht2⟩, ⟨w2, hw2⟩⟩
    rcases depStep_mono cwd fp recur hrec st1 d with ⟨⟨t1, ht1⟩, ⟨w1, hw1⟩⟩
    refine ⟨⟨t1 ++ t2, ?_⟩, ⟨w1 ++ w2, ?_⟩⟩
    · rw [ht2, ht1, List.append_assoc]
    · rw [hw2, hw1, List.append_assoc]

lemma depStep_good (cwd fp : Str) (recur : Str → GSt → GSt × Option BErr)
    (hgood : ∀ k s, ∀ p ∈ (recur k s).1.modules,
      p ∈ s.modules ∨ ∀ imp ∈ p.2.imports, OKimp cwd (recur k s).1 p.2.filePath imp)
    (st1 : GSt) (d : Str) :
    ∀ p ∈ (depStep cwd fp recur st1 d).modules,
      p ∈ st1.modules ∨
        ∀ imp ∈ p.2.imports, OKimp cwd (depStep cwd fp recur st1 d) p.2.filePath imp := by
  intro p hp
  rcases depStep_eq cwd fp recur st1 d with ⟨heq, _⟩ | ⟨_, _, ⟨st2, hr, heq⟩ | ⟨st2, e, hr, heq⟩⟩
  · rw [heq] at hp
    exact Or.inl hp
  · rw [heq] at hp ⊢
    rcases hgood (resolveDependencyPath cwd fp d) st1 p (by rw [hr]; exact hp) with h | h
    · exact Or.inl h
    · refine Or.inr (fun imp hi => ?_)
      have := h imp hi
      rw [hr] at this
      exact this
  · rw [heq] at hp ⊢
    simp only at hp
    rcases hgood (resolveDependencyPath cwd fp d) st1 p (by rw [hr]; exact hp) with h | h
    · exact Or.inl h
    · refine Or.inr (fun imp hi => ?_)
      have hok := h imp hi
      rw [hr] at hok
      exact OKimp_mono ⟨[], by simp⟩ ⟨[warnMsg d fp], rfl⟩ hok

lemma depFold_master (cwd : Str) (recur : Str → GSt → GSt × Option BErr)
    (hmono : ∀ k s, (∃ t, (recur k s).1.modules = s.modules ++ t) ∧
      (∃ w, (recur k s).1.warnings = s.warnings ++ w))
    (hkey : ∀ k s, (recur k s).2 = none →
      (lookupMod (recur k s).1.modules k).isSome = true)
    (hgood : ∀ k s, ∀ p ∈ (recur k s).1.modules,
      p ∈ s.modules ∨ ∀ imp ∈ p.2.imports, OKimp cwd (recur k s).1 p.2.filePath imp)
    (fp : Str) (m : JsModule) (hm : ImportsOK m.imports m.dependencies) :
    ∀ (ds : List Str) (st1 : GSt),
      (∀ imp ∈ m.imports, imp.path ∈ ds ∨ OKimp cwd st1 fp imp) →
      (∀ imp ∈ m.imports, OKimp cwd (ds.foldl (depStep cwd fp recur) st1) fp imp) ∧
      (∀ p ∈ (ds.foldl (depStep cwd fp recur) st1).modules,
        p ∈ st1.modules ∨
          ∀ imp ∈ p.2.imports,
            OKimp cwd (ds.foldl (depStep cwd fp recur) st1) p.2.filePath imp) := by
  intro ds
  induction ds with
  | nil =>
    intro st1 hinv
    refine ⟨fun imp hi => ?_, fun p hp => Or.inl hp⟩
    rcases hinv imp hi with h | h
    · cases h
    · exact h
  | cons d ds ih =>
    intro st1 hinv
    have htrans : ∀ imp ∈ m.imports,
        imp.path ∈ ds ∨ OKimp cwd (depStep cwd fp recur st1 d) fp imp := by
      intro imp hi
      rcases hinv imp hi with h | h
      · rcases List.mem_cons.mp h with h' | h'
        · subst h'
          right
          rcases depStep_eq cwd fp recur st1 imp.path with ⟨heq, hc⟩ |
            ⟨hc1, hc2, ⟨stx, hr, heq⟩ | ⟨stx, e, hr, heq⟩⟩
          · rw [heq]
            rcases hc with hc | hc
            · exfalso
              have hl := (hm imp hi).2
              have hne := isLocal_ne_nil hl
              rw [hne, hl] at hc
              simp at hc
            · exact Or.inl hc
          · have hk := hkey (resolveDependencyPath cwd fp imp.path) st1 (by rw [hr])
            rw [hr] at hk
            simp only at hk
            rw [heq]
            exact Or.inl hk
          · rw [heq]
            right
            simp [warnMsg]
        · exact Or.inl h'
      · exact Or.inr (OKimp_mono (depStep_mono cwd fp recur hmono st1 d).1
          (depStep_mono cwd fp recur hmono st1 d).2 h)
    rw [List.foldl_cons]
    rcases ih (depStep cwd fp recur st1 d) htrans with ⟨g1, g2⟩
    refine ⟨g1, fun p hp => ?_⟩
    rcases g2 p hp with h | h
    · rcases depStep_good cwd fp recur hgood st1 d p h with h' | h'
      · exact Or.inl h'
      · refine Or.inr (fun imp hi => ?_)
        exact OKimp_mono
          (depFold_mono cwd fp recur hmono ds (depStep cwd fp recur st1 d)).1
          (depFold_mono cwd fp recur hmono ds (depStep cwd fp recur st1 d)).2
          (h' imp hi)
    · exact Or.inr h

lemma buildGraph_eq (fs : FS) (cwd : Str) (fuel : Nat) (k : Str) (s : GSt) :
    ((lookupMod s.modules k).isSome = true ∧
      buildDependencyGraph fs cwd (fuel + 1) k s = (s, none)) ∨
    ((lookupMod s.modules k).isSome = false ∧
      ((∃ e, readModule fs cwd k s.nextId = .error e ∧
         buildDependencyGraph fs cwd (fuel + 1) k s = (s, some e)) ∨
       (∃ m, readModule fs cwd k s.nextId = .ok m ∧
         buildDependencyGraph fs cwd (fuel + 1) k s =
           (m.dependencies.foldl
             (depStep cwd k (fun k2 s2 => buildDependencyGraph fs cwd fuel k2 s2))
             ⟨s.modules ++ [(k, m)], s.nextId + 1, s.warnings⟩, none)))) := by
  by_cases h1 : (lookupMod s.modules k).isSome = true
  · exact Or.inl ⟨h1, by unfold buildDependencyGraph; rw [if_pos h1]⟩
  · refine Or.inr ⟨Bool.of_not_eq_true h1, ?_⟩
    cases hr : readModule fs cwd k s.nextId with
    | error e =>
      refine Or.inl ⟨e, rfl, ?_⟩
      unfold buildDependencyGraph
      rw [if_neg h1, hr]
    | ok m =>
      refine Or.inr ⟨m, rfl, ?_⟩
      conv_lhs => rw [buildDependencyGraph]
      rw [if_neg h1, hr]

lemma buildGraph_master (fs : FS) (cwd : Str) :
    ∀ fuel : Nat,
      (∀ k s, (∃ t, (buildDependencyGraph fs cwd fuel k s).1.modules = s.modules ++ t) ∧
        (∃ w, (buildDependencyGraph fs cwd fuel k s).1.warnings = s.warnings ++ w)) ∧
      (∀ k s, (buildDependencyGraph fs cwd fuel k s).2 = none →
        (lookupMod (buildDependencyGraph fs cwd fuel k s).1.modules k).isSome = true) ∧
      (∀ k s, ∀ p ∈ (buildDependencyGraph fs cwd fuel k s).1.modules,
        p ∈ s.modules ∨ ∀ imp ∈ p.2.imports,
          OKimp cwd (buildDependencyGraph fs cwd fuel k s).1 p.2.filePath imp) := by
  intro fuel
  induction fuel with
  | zero =>
    refine ⟨fun k s => ⟨⟨[], by simp [buildDependencyGraph]⟩,
      ⟨[], by simp [buildDependencyGraph]⟩⟩, fun k s h => ?_, fun k s p hp => ?_⟩
    · simp [buildDependencyGraph] at h
    · simp only [buildDependencyGraph] at hp
      exact Or.inl hp
  | succ fuel ih =>
    rcases ih with ⟨ihmono, ihkey, ihgood⟩
    refine ⟨fun k s => ?_, fun k s hnone => ?_, fun k s p hp => ?_⟩
    · rcases buildGraph_eq fs cwd fuel k s with ⟨h1, heq⟩ |
        ⟨h1, ⟨e, hr, heq⟩ | ⟨m, hr, heq⟩⟩
      · rw [heq]
        exact ⟨⟨[], by simp⟩, ⟨[], by simp⟩⟩
      · rw [heq]
        exact ⟨⟨[], by simp⟩, ⟨[], by simp⟩⟩
      · rw [heq]
        rcases depFold_mono cwd k (fun k2 s2 => buildDependencyGraph fs cwd fuel k2 s2)
          (fun k2 s2 => ihmono k2 s2) m.dependencies
          ⟨s.modules ++ [(k, m)], s.nextId + 1, s.warnings⟩ with ⟨⟨t, ht⟩, ⟨w, hw⟩⟩
        simp only at ht hw
        refine ⟨⟨[(k, m)] ++ t, ?_⟩, ⟨w, hw⟩⟩
        rw [ht, List.append_assoc]
    · rcases buildGraph_eq fs cwd fuel k s with ⟨h1, heq⟩ |
        ⟨h1, ⟨e, hr, heq⟩ | ⟨m, hr, heq⟩⟩
      · rw [heq]
        exact h1
      · rw [heq] at hnone
        simp at hnone
      · rw [heq]
        have hlkn : List.lookup k s.modules = none := by
          cases ho : List.lookup k s.modules with
          | none => rfl
          | some v => rw [show lookupMod s.modules k = some v from ho] at h1; cases h1
        have hst1 : (List.lookup k
            (s.modules ++ [(k, m)])).isSome = true := by
          rw [lookup_append_none k s.modules _ hlkn, lookup_cons_self]
          rfl
        rcases depFold_mono cwd k (fun k2 s2 => buildDependencyGraph fs cwd fuel k2 s2)
          (fun k2 s2 => ihmono k2 s2) m.dependencies
          ⟨s.modules ++ [(k, m)], s.nextId + 1, s.warnings⟩ with ⟨⟨t, ht⟩, _⟩
        simp only at ht
        show (List.lookup k _).isSome = true
        rw [ht]
        exact lookup_isSome_append hst1
    · rcases buildGraph_eq fs cwd fuel k s with ⟨h1, heq⟩ |
        ⟨h1, ⟨e, hr, heq⟩ | ⟨m, hr, heq⟩⟩
      · rw [heq] at hp ⊢
        exact Or.inl hp
      · rw [heq] at hp ⊢
        exact Or.inl hp
      · rcases readModule_ok_fields hr with ⟨hfp, hm⟩
        rw [heq] at hp ⊢
        simp only at hp ⊢
        rcases depFold_master cwd
          (fun k2 s2 => buildDependencyGraph fs cwd fuel k2 s2)
          (fun k2 s2 => ihmono k2 s2) (fun k2 s2 => ihkey k2 s2)
          (fun k2 s2 => ihgood k2 s2) k m hm m.dependencies
          ⟨s.modules ++ [(k, m)], s.nextId + 1, s.warnings⟩
          (fun imp hi => Or.inl (hm imp hi).1) with ⟨c1, c2⟩
        rcases c2 p hp with h | h
        · rcases List.mem_append.mp h with h' | h'
          · exact Or.inl h'
          · simp only [List.mem_singleton] at h'
            subst h'
            refine Or.inr (fun imp hi => ?_)
            have := c1 imp hi
            rw [hfp]
            exact this
        · exact Or.inr h

/-- Claim C4 (amended): the closure invariant holds for every build that
completes without warnings — every local specifier recorded in any module's
imports resolves to a key present in the graph.  In general each import is
either resolved in the graph or was downgraded to the corresponding
`console.warn` entry, so a dependency whose file cannot be read leaves a
recorded import with no graph key (see the counterexample). -/
theorem C4_closure_without_warnings :
    ∀ (fs : FS) (cwd : Str) (fuel : Nat) (entry : Str) (st' : GSt) (r : Option BErr),
      buildDependencyGraph fs cwd fuel entry initGSt = (st', r) →
      st'.warnings = [] →
      ∀ p ∈ st'.modules, ∀ imp ∈ p.2.imports,
        (lookupMod st'.modules
          (resolveDependencyPath cwd p.2.filePath imp.path)).isSome = true := by
  intro fs cwd fuel entry st' r hbuild hw p hp imp hi
  have hgood := (buildGraph_master fs cwd fuel).2.2 entry initGSt p
    (by rw [hbuild]; exact hp)
  rcases hgood with h | h
  · simp [initGSt] at h
  · have hok := h imp hi
    rw [hbuild] at hok
    unfold OKimp at hok
    rcases hok with h' | h'
    · exact h'
    · simp only at h'
      rw [hw] at h'
      cases h'

/-- Claim C4 witness: in the example graph (built with no warnings) the
entry's import of `./a.js` resolves to a key present in the graph. -/
theorem C4_witness :
    (lookupMod exGoodRun.1.modules
      (resolveDependencyPath (strOf "/w")
        (strOf "/w/main.js", exGoodModMain).2.filePath exGoodImp.path)).isSome = true :=
  C4_closure_without_warnings exGoodFs (strOf "/w") (fuelOf exGoodFs)
    (strOf "/w/main.js") exGoodRun.1 exGoodRun.2 rfl rfl
    (strOf "/w/main.js", exGoodModMain) (by decide) exGoodImp (by decide)
